import Mathlib

/-!
Verification of `server/pdf_converter.py`, a PDF → JSON converter exposed
behind a small HTTP upload handler.

The Python program is shallowly embedded: pure logic becomes Lean
functions; the effectful collaborators (PyPDF2's `PdfReader` with
per-page `extract_text`, `tempfile.NamedTemporaryFile`, `os.unlink`,
`cgi` form parsing) become explicit oracle records whose outcomes the
theorems quantify over; Python exceptions become `Except PyErr`;
filesystem side effects are logged as an event trace.
-/

namespace PdfConverter

/-- A Python exception value, identified by its message `str(e)`. -/
structure PyErr where
  msg : String
  deriving DecidableEq, Repr

/-- Python `str.isspace` characters: the separators used by `text.split()`
with no arguments. -/
def isPySpace (c : Char) : Bool :=
  c.toNat ∈ [0x09, 0x0A, 0x0B, 0x0C, 0x0D, 0x1C, 0x1D, 0x1E, 0x1F, 0x20,
    0x85, 0xA0, 0x1680, 0x2028, 0x2029, 0x202F, 0x205F, 0x3000] ||
  (0x2000 ≤ c.toNat && c.toNat ≤ 0x200A)

/-- Worker for `pySplit`: accumulate the current (reversed) token. -/
def pySplitAux : List Char → List Char → List (List Char)
  | [], acc => if acc.isEmpty then [] else [acc.reverse]
  | c :: cs, acc =>
    if isPySpace c then
      if acc.isEmpty then pySplitAux cs [] else acc.reverse :: pySplitAux cs []
    else pySplitAux cs (c :: acc)

/-- Python `text.split()` with no arguments: maximal runs of
non-whitespace characters, so no empty tokens. -/
def pySplit (s : String) : List String :=
  (pySplitAux s.data []).map List.asString

/-- One element of the `pages` list built by the extraction loop:
`{"page_number": i + 1, "content": text, "word_count": ...,
"character_count": ...}`.  `content` is `Option String` because
`extract_text` may in principle return `None` (the code guards for it
with `if text else 0`). -/
structure PageRecord where
  page_number : Nat
  content : Option String
  word_count : Nat
  character_count : Nat
  deriving DecidableEq, Repr

/-- `len(text.split()) if text else 0` — `None` and `""` are falsy. -/
def wordCount : Option String → Nat
  | none => 0
  | some t => if t = "" then 0 else (pySplit t).length

/-- `len(text) if text else 0` — `None` and `""` are falsy. -/
def charCount : Option String → Nat
  | none => 0
  | some t => if t = "" then 0 else t.length

/-- The dict appended for the page at 0-based index `i`. -/
def mkPage (i : Nat) (text : Option String) : PageRecord :=
  { page_number := i + 1
    content := text
    word_count := wordCount text
    character_count := charCount text }

/-- The `pdf_data` dict: `{"filename", "total_pages", "pages"}`. -/
structure DocumentResult where
  filename : String
  total_pages : Nat
  pages : List PageRecord
  deriving DecidableEq, Repr

/-- A ConversionOutcome dict: `{filename, success: true, data}` on
success, `{filename, success: false, error}` on failure. -/
inductive Outcome where
  | success (filename : String) (data : DocumentResult)
  | failure (filename : String) (error : String)
  deriving DecidableEq, Repr

/-- The `filename` key, present in both outcome shapes. -/
def Outcome.filename : Outcome → String
  | .success fn _ => fn
  | .failure fn _ => fn

/-- Oracle for the collaborators one `process_pdf` call uses:
`tempfile.NamedTemporaryFile` (the name it allocates and the outcome of
`temp_pdf.write`), `PdfReader` plus each page's `extract_text` (`parse`,
keyed on the bytes written to the temp file, which are exactly
`file_data`), and `os.unlink`.  `parse` returning `.error` models
`PdfReader` raising; an `.error` inside the page list models that page's
`extract_text` raising. -/
structure ConvEnv where
  tempName : String
  writeErr : Option PyErr
  parse : List Nat → Except PyErr (List (Except PyErr (Option String)))
  unlinkOk : Bool

/-- Filesystem events `process_pdf` performs, in order. -/
inductive FsEvent where
  | create (name : String)
  | write (name : String) (data : List Nat)
  | unlinkAttempt (name : String)
  | unlinkDone (name : String)
  deriving DecidableEq, Repr

/-- The `for i, page in enumerate(pdf.pages)` loop inside the `try`:
extract each page's text in order; the first raising `extract_text`
aborts the loop with its exception (pages appended so far are
discarded by the `except`). -/
def buildPages (i : Nat) : List (Except PyErr (Option String)) → Except PyErr (List PageRecord)
  | [] => .ok []
  | t :: ts => do
    let text ← t
    let rest ← buildPages (i + 1) ts
    pure (mkPage i text :: rest)

/-- The `try`/`except` of `process_pdf`: open the PDF and extract pages,
returning the success dict, or let `except Exception as e` produce the
failure dict `{filename, success: false, error: str(e)}`. -/
def convertBody (env : ConvEnv) (file_data : List Nat) (filename : String) : Outcome :=
  match (do
      let pageList ← env.parse file_data
      buildPages 0 pageList : Except PyErr (List PageRecord)) with
  | .error e => .failure filename e.msg
  | .ok pages => .success filename ⟨filename, pages.length, pages⟩

/-- `process_pdf(file_data, filename)`.  The temp file is created and
written *before* the `try`, so a `write` exception propagates (the
`Except.error` result) with no cleanup; otherwise the `finally` attempts
`os.unlink` on every exit of the `try`/`except` and swallows an unlink
failure (`except: pass`). -/
def process_pdf (env : ConvEnv) (file_data : List Nat) (filename : String) :
    Except PyErr Outcome × List FsEvent :=
  let created := [FsEvent.create env.tempName]
  match env.writeErr with
  | some e => (.error e, created)
  | none =>
    let written := created ++ [FsEvent.write env.tempName file_data]
    let result := convertBody env file_data filename
    let cleanup := FsEvent.unlinkAttempt env.tempName ::
      (if env.unlinkOk then [FsEvent.unlinkDone env.tempName] else [])
    (.ok result, written ++ cleanup)

/-! ### The `json` collaborator: values and `json.dumps(·, indent=2)`

JSON values, restricted to the shapes this program serializes (objects
keep insertion order, numbers are Python ints — no floats occur in any
value the program builds or repackages).  Python dicts have distinct
keys; objects are modelled as ordered field lists. -/

/-- A JSON value. -/
inductive JValue where
  | null
  | jbool (b : Bool)
  | num (n : Int)
  | str (s : String)
  | arr (items : List JValue)
  | obj (fields : List (String × JValue))
  deriving Repr

/-- Hex digit as emitted by Python's `'\\u%04x'` (lowercase). -/
def hexDig (n : Nat) : Char :=
  if n < 10 then Char.ofNat ('0'.toNat + n) else Char.ofNat ('a'.toNat + (n - 10))

/-- Four lowercase hex digits, most significant first. -/
def hex4 (n : Nat) : List Char :=
  [hexDig (n / 4096 % 16), hexDig (n / 256 % 16), hexDig (n / 16 % 16), hexDig (n % 16)]

/-- Decimal digits of a natural number, most significant first
(Python `repr` of a nonnegative int). -/
def natDigits (n : Nat) : List Char :=
  if h : n < 10 then [Char.ofNat (48 + n)]
  else
    have : n / 10 < n := Nat.div_lt_self (by omega) (by omega)
    natDigits (n / 10) ++ [Char.ofNat (48 + n % 10)]

/-- Python `repr` of an int, as serialized by `json.dumps`. -/
def intRepr (n : Int) : List Char :=
  if n < 0 then '-' :: natDigits n.natAbs else natDigits n.toNat

/-- `json.dumps` escaping of one character with the default
`ensure_ascii=True`: the two-character escapes from the escape dict,
printable ASCII verbatim, `\uXXXX` for everything else, astral
characters as a surrogate pair. -/
def escChar (c : Char) : List Char :=
  let n := c.toNat
  if c = '"' then ['\\', '"']
  else if c = '\\' then ['\\', '\\']
  else if n = 0x08 then ['\\', 'b']
  else if n = 0x09 then ['\\', 't']
  else if n = 0x0A then ['\\', 'n']
  else if n = 0x0C then ['\\', 'f']
  else if n = 0x0D then ['\\', 'r']
  else if 0x20 ≤ n ∧ n ≤ 0x7E then [c]
  else if n < 0x10000 then '\\' :: 'u' :: hex4 n
  else
    '\\' :: 'u' :: hex4 (0xD800 + (n - 0x10000) / 0x400) ++
      '\\' :: 'u' :: hex4 (0xDC00 + (n - 0x10000) % 0x400)

/-- A JSON string literal: `"` + escaped characters + `"`. -/
def quoteStr (s : String) : List Char :=
  '"' :: (s.data.map escChar).flatten ++ ['"']

/-- The `'\n' + '  ' * lvl` that `indent=2` puts before nested items. -/
def nlIndent (lvl : Nat) : List Char :=
  '\n' :: List.replicate (2 * lvl) ' '

mutual

/-- `json.dumps(v, indent=2)` serialized at nesting level `lvl`:
empty containers collapse to `[]`/`{}`, non-empty ones put each item on
its own indented line, item separator `','`, key separator `': '`. -/
def jdump (lvl : Nat) : JValue → List Char
  | .null => ['n', 'u', 'l', 'l']
  | .jbool true => ['t', 'r', 'u', 'e']
  | .jbool false => ['f', 'a', 'l', 's', 'e']
  | .num n => intRepr n
  | .str s => quoteStr s
  | .arr [] => ['[', ']']
  | .arr (x :: xs) =>
    '[' :: nlIndent (lvl + 1) ++ jdump (lvl + 1) x ++ jdumpItems (lvl + 1) xs ++
      nlIndent lvl ++ [']']
  | .obj [] => ['{', '}']
  | .obj (f :: fs) =>
    '{' :: nlIndent (lvl + 1) ++ jdumpField (lvl + 1) f ++ jdumpFields (lvl + 1) fs ++
      nlIndent lvl ++ ['}']

/-- The remaining array items, each preceded by `',' + newline-indent`. -/
def jdumpItems (lvl : Nat) : List JValue → List Char
  | [] => []
  | x :: xs => ',' :: nlIndent lvl ++ jdump lvl x ++ jdumpItems lvl xs

/-- One `"key": value` pair. -/
def jdumpField (lvl : Nat) : String × JValue → List Char
  | (k, v) => quoteStr k ++ ':' :: ' ' :: jdump lvl v

/-- The remaining object fields, each preceded by `',' + newline-indent`. -/
def jdumpFields (lvl : Nat) : List (String × JValue) → List Char
  | [] => []
  | f :: fs => ',' :: nlIndent lvl ++ jdumpField lvl f ++ jdumpFields lvl fs

end

/-- `json.dumps(v, indent=2)` as a string. -/
def json_dumps2 (v : JValue) : String :=
  (jdump 0 v).asString

/-! ### The `json` collaborator: `json.loads`

A parser for the JSON documents this program produces and repackages:
`null`, booleans, integers (the data model has no floats), strings with
the full escape grammar including surrogate pairs, arrays and objects.
Whitespace is the `[ \t\n\r]*` that `json.loads` skips around tokens. -/

/-- The whitespace `json.loads` skips between tokens. -/
def isJsonWs (c : Char) : Bool :=
  c = ' ' || c = '\t' || c = '\n' || c = '\r'

/-- Drop leading JSON whitespace. -/
def skipWs : List Char → List Char
  | [] => []
  | c :: cs => if isJsonWs c then skipWs cs else c :: cs

/-- Decimal digit (`'0'` to `'9'`, i.e. code points 48-57)? -/
def isDigitChar (c : Char) : Bool :=
  48 ≤ c.toNat && c.toNat ≤ 57

/-- Value of one hex digit, either case (`0-9`, `a-f`, `A-F`). -/
def hexVal? (c : Char) : Option Nat :=
  if 48 ≤ c.toNat ∧ c.toNat ≤ 57 then some (c.toNat - 48)
  else if 97 ≤ c.toNat ∧ c.toNat ≤ 102 then some (c.toNat - 87)
  else if 65 ≤ c.toNat ∧ c.toNat ≤ 70 then some (c.toNat - 55)
  else none

/-- Value of a `\uXXXX` escape's four hex digits. -/
def hex4Val (a b c d : Char) : Option Nat := do
  let va ← hexVal? a
  let vb ← hexVal? b
  let vc ← hexVal? c
  let vd ← hexVal? d
  pure (((va * 16 + vb) * 16 + vc) * 16 + vd)

/-- Split off the maximal run of leading decimal digits. -/
def takeDigits : List Char → List Char × List Char
  | [] => ([], [])
  | c :: cs =>
    if isDigitChar c then
      let p := takeDigits cs
      (c :: p.1, p.2)
    else ([], c :: cs)

/-- Numeric value of a digit run (most significant first). -/
def digitsVal : List Char → Nat → Nat
  | [], acc => acc
  | c :: cs, acc => digitsVal cs (acc * 10 + (c.toNat - 48))

/-- Decode what follows a backslash in a JSON string literal: the
two-character escapes, or a `\\uXXXX` escape — where a high surrogate
followed by a low surrogate escape is recombined into one code point
(Python keeps a lone surrogate's code unit; Lean's `Char.ofNat` maps
such an invalid scalar to NUL, and no output of `json.dumps` on valid
Unicode contains one).  Returns the decoded character and how many
input characters were consumed. -/
def readEscape : List Char → Option (Char × Nat)
  | [] => none
  | e :: cs2 =>
    if e = '"' then some ('"', 1)
    else if e = '\\' then some ('\\', 1)
    else if e = '/' then some ('/', 1)
    else if e = 'b' then some (Char.ofNat 0x08, 1)
    else if e = 'f' then some (Char.ofNat 0x0C, 1)
    else if e = 'n' then some ('\n', 1)
    else if e = 'r' then some (Char.ofNat 0x0D, 1)
    else if e = 't' then some (Char.ofNat 0x09, 1)
    else if e = 'u' then
      match cs2 with
      | a :: b :: c3 :: d :: cs3 =>
        match hex4Val a b c3 d with
        | none => none
        | some n1 =>
          if 0xD800 ≤ n1 ∧ n1 ≤ 0xDBFF then
            match cs3 with
            | '\\' :: 'u' :: a2 :: b2 :: c4 :: d2 :: _ =>
              match hex4Val a2 b2 c4 d2 with
              | some n2 =>
                if 0xDC00 ≤ n2 ∧ n2 ≤ 0xDFFF then
                  some (Char.ofNat (0x10000 + (n1 - 0xD800) * 0x400 + (n2 - 0xDC00)), 11)
                else some (Char.ofNat n1, 5)
              | none => some (Char.ofNat n1, 5)
            | _ => some (Char.ofNat n1, 5)
          else some (Char.ofNat n1, 5)
      | _ => none
    else none

/-- Body of a JSON string literal, after the opening quote: literal
characters (control characters are rejected, as in strict-mode
`json.loads`), and backslash escapes via `readEscape`. -/
def parseStringBody : List Char → List Char → Option (String × List Char)
  | [], _ => none
  | c :: cs, acc =>
    if c = '"' then some (acc.reverse.asString, cs)
    else if c = '\\' then
      match readEscape cs with
      | none => none
      | some (ch, k) => parseStringBody (cs.drop k) (ch :: acc)
    else if c.toNat < 0x20 then none
    else parseStringBody cs (c :: acc)
termination_by cs _ => cs.length
decreasing_by
  · simp only [List.length_drop, List.length_cons]
    omega
  · simp

/-- Does the list not begin with a decimal digit?  (Numbers are parsed
greedily, so roundtrip statements require the following text not to
start with a digit.) -/
def noDigitStart : List Char → Prop
  | [] => True
  | c :: _ => isDigitChar c = false

mutual

/-- Parse one JSON value (leading whitespace allowed).  `fuel` bounds the
recursion depth; `json_loads` supplies enough for its whole input. -/
def parseValue (fuel : Nat) (cs : List Char) : Option (JValue × List Char) :=
  match fuel with
  | 0 => none
  | fuel + 1 =>
    match skipWs cs with
    | [] => none
    | c :: rest =>
      if c = 'n' then
        match rest with
        | 'u' :: 'l' :: 'l' :: r => some (.null, r)
        | _ => none
      else if c = 't' then
        match rest with
        | 'r' :: 'u' :: 'e' :: r => some (.jbool true, r)
        | _ => none
      else if c = 'f' then
        match rest with
        | 'a' :: 'l' :: 's' :: 'e' :: r => some (.jbool false, r)
        | _ => none
      else if c = '"' then
        (parseStringBody rest []).map fun p => (.str p.1, p.2)
      else if c = '[' then
        let r := skipWs rest
        if r.head? = some ']' then some (.arr [], r.tail)
        else do
          let (v, r1) ← parseValue fuel r
          let (vs, r2) ← parseItems fuel r1
          pure (.arr (v :: vs), r2)
      else if c = '{' then
        let r := skipWs rest
        if r.head? = some '}' then some (.obj [], r.tail)
        else do
          let (f, r1) ← parseField fuel r
          let (fs, r2) ← parseFields fuel r1
          pure (.obj (f :: fs), r2)
      else if c = '-' then
        match takeDigits rest with
        | ([], _) => none
        | (ds, r) => some (.num (-(digitsVal ds 0 : Int)), r)
      else if isDigitChar c then
        match takeDigits (c :: rest) with
        | (ds, r) => some (.num ((digitsVal ds 0 : Nat) : Int), r)
      else none

/-- After one array item: `,` and another item, or the closing `]`. -/
def parseItems (fuel : Nat) (cs : List Char) : Option (List JValue × List Char) :=
  match fuel with
  | 0 => none
  | fuel + 1 =>
    match skipWs cs with
    | ']' :: rest => some ([], rest)
    | ',' :: rest => do
      let (v, r1) ← parseValue fuel rest
      let (vs, r2) ← parseItems fuel r1
      pure (v :: vs, r2)
    | _ => none

/-- One `"key": value` pair. -/
def parseField (fuel : Nat) (cs : List Char) : Option ((String × JValue) × List Char) :=
  match fuel with
  | 0 => none
  | fuel + 1 =>
    match skipWs cs with
    | '"' :: rest =>
      match parseStringBody rest [] with
      | none => none
      | some (k, r) =>
        match skipWs r with
        | ':' :: r2 =>
          (parseValue fuel r2).map fun p => ((k, p.1), p.2)
        | _ => none
    | _ => none

/-- After one object field: `,` and another field, or the closing `}`. -/
def parseFields (fuel : Nat) (cs : List Char) :
    Option (List (String × JValue) × List Char) :=
  match fuel with
  | 0 => none
  | fuel + 1 =>
    match skipWs cs with
    | '}' :: rest => some ([], rest)
    | ',' :: rest => do
      let (f, r1) ← parseField fuel rest
      let (fs, r2) ← parseFields fuel r1
      pure (f :: fs, r2)
    | _ => none

end

/-- `json.loads(s)` on the grammar above: one document, nothing but
whitespace after it.  The parser's recursion depth on any input it
accepts is below the input's length, since every level of descent
consumes at least one character, so the fuel `s.length + 16` (with some
constant slack) is never the limiting factor. -/
def json_loads (s : String) : Option JValue :=
  match parseValue (s.length + 16) s.data with
  | some (v, rest) => if (skipWs rest).isEmpty then some v else none
  | none => none

/-- The JSON value of a page's `content`: the extracted string, or
`null` when `extract_text` returned `None`. -/
def jcontent : Option String → JValue
  | none => .null
  | some s => .str s

/-- The JSON value of a page dict, keys in insertion order (which
`json.dumps` preserves). -/
def pageToJValue (p : PageRecord) : JValue :=
  .obj [("page_number", .num p.page_number),
    ("content", jcontent p.content),
    ("word_count", .num p.word_count),
    ("character_count", .num p.character_count)]

/-- The JSON value of a `pdf_data` dict, keys in insertion order. -/
def docToJValue (d : DocumentResult) : JValue :=
  .obj [("filename", .str d.filename),
    ("total_pages", .num d.total_pages),
    ("pages", .arr (d.pages.map pageToJValue))]

/-! ### The batch packager -/

/-- Python `s.replace(old, new)` on char lists: replace every
non-overlapping occurrence of `old`, scanning left to right.  (The call
site uses the nonempty pattern `'.pdf'`; the empty-pattern corner of
Python's `replace` does not arise and is mapped to the identity.) -/
def pyReplaceL (old new : List Char) (s : List Char) : List Char :=
  if hold : old = [] then s
  else
    match s with
    | [] => []
    | c :: cs =>
      if old.isPrefixOf (c :: cs) then
        new ++ pyReplaceL old new (List.drop old.length (c :: cs))
      else c :: pyReplaceL old new cs
termination_by s.length
decreasing_by
  · simp only [List.length_drop, List.length_cons]
    have := List.length_pos.mpr hold
    omega
  · simp

/-- Python `s.replace(old, new)`. -/
def pyReplace (s old new : String) : String :=
  (pyReplaceL old.data new.data s.data).asString

/-- One element of a `download_all` request's `json_data` list: a JSON
object that may or may not carry the `filename` and `data` keys. -/
structure ZipEntry where
  filename : Option String
  data : Option JValue

/-- `create_zip_package(json_data_list)`, with the ZIP container (an
opaque `zipfile` collaborator) abstracted to its ordered member list
(member name, decompressed member text).  Every entry carrying both
`filename` and `data` contributes the member
`item['filename'].replace('.pdf', '.json')` holding
`json.dumps(item['data'], indent=2)`; other entries are skipped. -/
def create_zip_package (json_data_list : List ZipEntry) : List (String × String) :=
  json_data_list.filterMap fun item =>
    match item.filename, item.data with
    | some fn, some d => some (pyReplace fn ".pdf" ".json", json_dumps2 d)
    | _, _ => none

/-! ### The HTTP handler (`do_POST`) -/

/-- Python `str.strip()` on char lists. -/
def pyStrip (l : List Char) : List Char :=
  ((l.dropWhile isPySpace).reverse.dropWhile isPySpace).reverse

/-- `cgi.parse_header(line)` restricted to what `do_POST` consumes: the
main value, the stripped part before the first `';'`.  It is called on
`self.headers['Content-Type']`, which is `None` when the header is
absent; `parse_header` then raises a `TypeError` (from `';' + line`)
before any branch of the handler is reached. -/
def parse_header : Option String → Except PyErr String
  | none => .error ⟨"TypeError: can only concatenate str (not \"NoneType\") to str"⟩
  | some line => .ok (pyStrip (line.data.takeWhile (· ≠ ';'))).asString

/-- One uploaded file part (a `fileitem`): its `filename` attribute (the
empty string models both `None` and `''`, which are equally falsy) and
the bytes `fileitem.file.read()` returns. -/
structure FilePart where
  filename : String
  content : List Nat
  deriving DecidableEq, Repr

/-- What the `cgi.FieldStorage` collaborator yields for one request:
either it raises while reading/parsing the body (e.g. a missing or
invalid multipart boundary), or it produces a form whose `files[]`
entry is `filesField` (`none` models `'files[]' in form` being false;
the code wraps a single non-list item into a list, so a one-element
list models that case). -/
structure FormData where
  filesField : Option (List FilePart)

/-- The parsed `application/json` body as `do_POST` consumes it:
`payload['action']` (`none` models an absent key) and
`payload.get('json_data', [])`. -/
structure Payload where
  action : Option String
  json_data : List ZipEntry

/-- One HTTP request as `do_POST` sees it, bundling the outcomes of the
parsing collaborators it may consult: the request line's
`command`/`path`, the raw `Content-Type` header, what
`cgi.FieldStorage` would yield for the body (`form`), and what
`int(self.headers['Content-Length'])` + `rfile.read(...).decode()` +
`json.loads` would yield (`jsonBody`; its `.error` covers a missing
`Content-Length`, an undecodable body and malformed JSON alike). -/
structure Request where
  command : String
  path : String
  contentType : Option String
  form : Except PyErr FormData
  jsonBody : Except PyErr Payload

/-- A response body, at the structural level the claims speak about: the
JSON array of outcome dicts, the `download_all` reply (whose
`zip_base64` field is the base64 of the ZIP with the given members),
the literal `Not Found` bytes, or nothing. -/
inductive RespBody where
  | empty
  | notFound
  | jsonOutcomes (results : List Outcome)
  | jsonZip (members : List (String × String))
  deriving DecidableEq, Repr

/-- Status line, headers sent via `send_header`, and body. -/
structure Response where
  status : Nat
  headers : List (String × String)
  body : RespBody
  deriving DecidableEq, Repr

/-- Per-request collaborator oracles: `envs i` governs the `process_pdf`
call for the file part at position `i` in the `files[]` list. -/
structure HandlerEnv where
  envs : Nat → ConvEnv

/-- The `try`/`except Exception as e` around one `self.process_pdf`
call in the upload loop: a raised exception becomes the failure dict
`{filename, success: false, error: str(e)}`. -/
def fileOutcome (env : ConvEnv) (p : FilePart) : Outcome :=
  match (process_pdf env p.content p.filename).1 with
  | .ok outcome => outcome
  | .error e => Outcome.failure p.filename e.msg

/-- The upload loop over `files`: each `fileitem` with a truthy filename
is read and converted (`fileOutcome`); the loop never aborts —
falsy-named parts are skipped, failures become entries. -/
def processFiles (henv : HandlerEnv) : Nat → List FilePart → List Outcome
  | _, [] => []
  | i, p :: ps =>
    if p.filename = "" then processFiles henv (i + 1) ps
    else fileOutcome (henv.envs i) p :: processFiles henv (i + 1) ps

/-- The CORS preflight response the `elif` branch would send. -/
def corsPreflight : Response :=
  { status := 200
    headers := [("Access-Control-Allow-Origin", "*"),
      ("Access-Control-Allow-Methods", "POST, OPTIONS"),
      ("Access-Control-Allow-Headers", "Content-Type")]
    body := .empty }

/-- The unconditional fallthrough: `404` with body `b'Not Found'`. -/
def notFoundResp : Response :=
  { status := 404, headers := [], body := .notFound }

/-- `do_POST`, branch for branch: the outer `if self.path == '/convert'`
(inside which `cgi.parse_header`, `cgi.FieldStorage` and the JSON body
reading can raise — a raise propagates out of the handler as
`Except.error`), the content-type dispatch, the outer `elif` meant for
the OPTIONS preflight (unreachable: its condition requires
`path == '/convert'`, which the outer `if` already captured, and the
base server dispatches OPTIONS to a nonexistent `do_OPTIONS`, never
here), and the unconditional 404 fallthrough. -/
def do_POST (henv : HandlerEnv) (req : Request) : Except PyErr Response :=
  if req.path = "/convert" then do
    let content_type ← parse_header req.contentType
    if content_type = "multipart/form-data" then do
      let form ← req.form
      let results := match form.filesField with
        | some files => processFiles henv 0 files
        | none => []
      pure { status := 200
             headers := [("Content-Type", "application/json"),
               ("Access-Control-Allow-Origin", "*")]
             body := .jsonOutcomes results }
    else if content_type = "application/json" then do
      let payload ← req.jsonBody
      if payload.action = some "download_all" then
        pure { status := 200
               headers := [("Content-Type", "application/json"),
                 ("Access-Control-Allow-Origin", "*")]
               body := .jsonZip (create_zip_package payload.json_data) }
      else pure notFoundResp
    else pure notFoundResp
  else if req.path = "/convert" ∧ req.command = "OPTIONS" then
    pure corsPreflight
  else
    pure notFoundResp

/-! ### The command-line variant -/

/-- `os.path.basename` (posix): the part after the last `'/'`. -/
def os_basename (p : String) : String :=
  ((p.data.reverse.takeWhile (· ≠ '/')).reverse).asString

/-- `os.path.splitext(p)[0]` (posix): cut at the last `'.'`, unless
every character of the basename before that dot is itself a dot (so
`'.bashrc'` keeps its name). -/
def splitext_root (p : String) : String :=
  let l := p.data
  let fname := (l.reverse.takeWhile (· ≠ '/')).reverse
  if fname.contains '.' then
    let afterDot := (fname.reverse.takeWhile (· ≠ '.')).reverse
    let extLen := afterDot.length + 1
    let pre := fname.take (fname.length - extLen)
    if pre.all (· = '.') then p else (l.take (l.length - extLen)).asString
  else p

/-- `extract_text_from_pdf(pdf_path)`: open the PDF and extract every
page, or re-raise any failure as
`Exception('Error extracting text from PDF: ' + str(e))`.  The reader's
behaviour at that path is the `parse` oracle argument. -/
def extract_text_from_pdf
    (parse : Except PyErr (List (Except PyErr (Option String)))) :
    Except PyErr (List PageRecord) :=
  match (do
      let pageList ← parse
      buildPages 0 pageList : Except PyErr (List PageRecord)) with
  | .ok pages => .ok pages
  | .error e => .error ⟨"Error extracting text from PDF: " ++ e.msg⟩

/-- `convert_pdf_to_json(pdf_path, output_path=None)`.  The prefix up to
`file_name = os.path.splitext(base_name)[0]` is in the source file.

Modelled from the spec: the function's tail (default output path,
extraction, writing the JSON file, return value) is missing — the
source file ends mid-function right after the comment
`# Generate default output path if not provided`.  Per the spec
("Command-line variant: conversion of a local PDF path to a JSON output
file (single-file batch mode), output path derived from input basename
when unspecified") and the docstring in the source ("Returns: Path to
the saved JSON file"), the default output path is
`file_name + '.json'`, the extracted document is written there as JSON,
and that path is returned.  The result pairs the returned path with the
list of (path, text) file writes performed. -/
def convert_pdf_to_json
    (parse : Except PyErr (List (Except PyErr (Option String))))
    (pdf_path : String) (output_path : Option String) :
    Except PyErr (String × List (String × String)) := do
  let base_name := os_basename pdf_path
  let file_name := splitext_root base_name
  let out := output_path.getD (file_name ++ ".json")
  let pages ← extract_text_from_pdf parse
  let doc := DocumentResult.mk base_name pages.length pages
  pure (out, [(out, json_dumps2 (docToJValue doc))])

/-! ## Helper lemmas -/

theorem except_bind_ok {α β ε : Type} (a : α) (f : α → Except ε β) :
    (Except.ok a : Except ε α) >>= f = f a := rfl

theorem except_bind_err {α β ε : Type} (e : ε) (f : α → Except ε β) :
    (Except.error e : Except ε α) >>= f = Except.error e := rfl

theorem convertBody_filename (env : ConvEnv) (fd : List Nat) (fn : String) :
    (convertBody env fd fn).filename = fn := by
  unfold convertBody
  split <;> rfl

theorem buildPages_ok_of_all_ok :
    ∀ (ts : List (Except PyErr (Option String))) (k : Nat),
    (∀ x ∈ ts, ∃ t, x = .ok t) →
    ∃ pages, buildPages k ts = .ok pages ∧ pages.length = ts.length ∧
      ∀ i (h : i < pages.length), (pages.get ⟨i, h⟩).page_number = k + i + 1 := by
  intro ts
  induction ts with
  | nil =>
    intro k _
    exact ⟨[], rfl, rfl, by intro i h; simp at h⟩
  | cons x xs ih =>
    intro k hall
    obtain ⟨t, rfl⟩ := hall x (by simp)
    obtain ⟨pages', h1, h2, h3⟩ := ih (k + 1) (fun y hy => hall y (by simp [hy]))
    refine ⟨mkPage k t :: pages', ?_, by simp [h2], ?_⟩
    · simp [buildPages, h1]
      rfl
    · intro i h
      cases i with
      | zero => simp [mkPage]
      | succ i' =>
        simp only [List.get_cons_succ]
        rw [h3 i' (by simpa using h)]
        omega

theorem buildPages_error_at :
    ∀ (ts : List (Except PyErr (Option String))) (k i : Nat) (e : PyErr),
    ts.get? i = some (.error e) →
    (∀ j, j < i → ∃ t, ts.get? j = some (.ok t)) →
    buildPages k ts = .error e := by
  intro ts
  induction ts with
  | nil => intro k i e h _; simp at h
  | cons x xs ih =>
    intro k i e hi hpre
    cases i with
    | zero =>
      simp only [List.get?_cons_zero, Option.some.injEq] at hi
      subst hi
      rfl
    | succ i' =>
      obtain ⟨t, ht⟩ := hpre 0 (by omega)
      simp only [List.get?_cons_zero, Option.some.injEq] at ht
      subst ht
      have hrec := ih (k + 1) i' e (by simpa using hi)
        (fun j hj => by simpa using hpre (j + 1) (by omega))
      simp [buildPages, hrec, except_bind_ok]

/-! ## C2: open/extract failures surface as data, not as raises -/

/-- C2: for every input bytes/filename pair, once the temp-file write has
succeeded, `process_pdf` never raises: it returns some outcome record
carrying the filename; and whenever opening the PDF fails, or the
extraction of some page fails (all earlier pages extracting fine), the
returned record is exactly `{filename, success: false, error: str(e)}`. -/
theorem open_extract_failures_become_data (env : ConvEnv) (fd : List Nat) (fn : String)
    (hw : env.writeErr = none) :
    (∃ out, (process_pdf env fd fn).1 = .ok out ∧ out.filename = fn) ∧
    (∀ e, env.parse fd = .error e →
      (process_pdf env fd fn).1 = .ok (.failure fn e.msg)) ∧
    (∀ exts i e, env.parse fd = .ok exts →
      exts.get? i = some (.error e) →
      (∀ j, j < i → ∃ t, exts.get? j = some (.ok t)) →
      (process_pdf env fd fn).1 = .ok (.failure fn e.msg)) := by
  refine ⟨⟨convertBody env fd fn, ?_, convertBody_filename env fd fn⟩, ?_, ?_⟩
  · simp [process_pdf, hw]
  · intro e he
    simp [process_pdf, hw, convertBody, he, except_bind_err]
  · intro exts i e hexts hi hpre
    have herr := buildPages_error_at exts 0 i e hi hpre
    simp [process_pdf, hw, convertBody, hexts, herr, except_bind_ok]

/-- Witness for C2 at a concrete corrupt-PDF input. -/
theorem open_extract_failures_become_data_witness :
    (process_pdf
        ⟨"/tmp/t.pdf", none, fun _ => .error ⟨"EOF marker not found"⟩, true⟩
        [37, 80] "broken.pdf").1 =
      .ok (.failure "broken.pdf" "EOF marker not found") :=
  (open_extract_failures_become_data
    ⟨"/tmp/t.pdf", none, fun _ => .error ⟨"EOF marker not found"⟩, true⟩
    [37, 80] "broken.pdf" rfl).2.1 ⟨"EOF marker not found"⟩ rfl

/-! ## C3: valid PDFs give 1-based, dense page numbering -/

/-- C3: for every input whose reader yields `N` pages, all of whose
texts extract without raising, `process_pdf` returns a success outcome
whose data has `total_pages = N`, `len(pages) = N`, and
`page_number = i + 1` at every 0-based position `i` — i.e. the page
numbers are exactly `1, 2, ..., N` in document order. -/
theorem valid_pdf_page_numbering (env : ConvEnv) (fd : List Nat) (fn : String)
    (exts : List (Except PyErr (Option String)))
    (hw : env.writeErr = none)
    (hp : env.parse fd = .ok exts)
    (hok : ∀ x ∈ exts, ∃ t, x = .ok t) :
    ∃ d, (process_pdf env fd fn).1 = .ok (.success fn d) ∧
      d.total_pages = exts.length ∧
      d.pages.length = exts.length ∧
      ∀ i (h : i < d.pages.length), (d.pages.get ⟨i, h⟩).page_number = i + 1 := by
  obtain ⟨pages, h1, h2, h3⟩ := buildPages_ok_of_all_ok exts 0 hok
  refine ⟨⟨fn, pages.length, pages⟩, ?_, by simp [h2], by simp [h2], ?_⟩
  · simp [process_pdf, hw, convertBody, hp, h1, except_bind_ok]
  · intro i h
    simpa using h3 i h

/-- Witness for C3 on a concrete two-page document. -/
theorem valid_pdf_page_numbering_witness :
    ∃ d, (process_pdf
        ⟨"/tmp/t.pdf", none, fun _ => .ok [.ok (some "a b c"), .ok (some "")], true⟩
        [37] "ok.pdf").1 = .ok (.success "ok.pdf" d) ∧
      d.total_pages = 2 ∧ d.pages.length = 2 ∧
      ∀ i (h : i < d.pages.length), (d.pages.get ⟨i, h⟩).page_number = i + 1 :=
  valid_pdf_page_numbering
    ⟨"/tmp/t.pdf", none, fun _ => .ok [.ok (some "a b c"), .ok (some "")], true⟩
    [37] "ok.pdf" [.ok (some "a b c"), .ok (some "")] rfl rfl
    (by intro x hx; simp only [List.mem_cons, List.not_mem_nil, or_false] at hx
        rcases hx with rfl | rfl <;> exact ⟨_, rfl⟩)

/-! ## C1: per-file isolation in the upload handler -/

theorem process_pdf_fst (env : ConvEnv) (fd : List Nat) (fn : String) :
    (process_pdf env fd fn).1 = match env.writeErr with
      | some e => .error e
      | none => .ok (convertBody env fd fn) := by
  unfold process_pdf
  cases env.writeErr <;> simp

theorem fileOutcome_filename (env : ConvEnv) (p : FilePart) :
    (fileOutcome env p).filename = p.filename := by
  unfold fileOutcome
  rw [process_pdf_fst]
  cases env.writeErr
  · simpa using convertBody_filename env p.content p.filename
  · rfl

theorem processFiles_eq_enum (henv : HandlerEnv) :
    ∀ (files : List FilePart) (i : Nat),
    processFiles henv i files =
      ((List.enumFrom i files).filter fun q => q.2.filename ≠ "").map
        fun q => fileOutcome (henv.envs q.1) q.2 := by
  intro files
  induction files with
  | nil => intro i; rfl
  | cons p ps ih =>
    intro i
    by_cases hp : p.filename = ""
    · simp [processFiles, hp, List.enumFrom_cons, List.filter_cons, ih]
    · simp [processFiles, hp, List.enumFrom_cons, List.filter_cons, ih]

theorem processFiles_filenames (henv : HandlerEnv) :
    ∀ (files : List FilePart) (i : Nat),
    (processFiles henv i files).map Outcome.filename =
      (files.filter fun p => p.filename ≠ "").map FilePart.filename := by
  intro files
  induction files with
  | nil => intro i; rfl
  | cons p ps ih =>
    intro i
    by_cases hp : p.filename = ""
    · simp [processFiles, hp, List.filter_cons, ih]
    · simp [processFiles, hp, List.filter_cons, ih i.succ, fileOutcome_filename]

/-- C1: a multipart POST to `/convert` always gets an HTTP 200
`application/json` response whose body is the ordered outcome array:
one `ConversionOutcome` for each file part with a non-empty filename,
in upload order (their `filename` fields are exactly the non-empty part
filenames, in order); and a part whose conversion raises contributes
its own `{filename, success: false, error}` entry (`fileOutcome`)
without disturbing the rest — the response is built for every
collaborator behaviour `henv`. -/
theorem multipart_batch_isolation (henv : HandlerEnv) (req : Request)
    (form : FormData) (files : List FilePart)
    (hpath : req.path = "/convert")
    (hct : parse_header req.contentType = .ok "multipart/form-data")
    (hform : req.form = .ok form)
    (hfiles : form.filesField = some files) :
    do_POST henv req = .ok
      { status := 200
        headers := [("Content-Type", "application/json"),
          ("Access-Control-Allow-Origin", "*")]
        body := .jsonOutcomes (((List.enumFrom 0 files).filter
            fun q => q.2.filename ≠ "").map
          fun q => fileOutcome (henv.envs q.1) q.2) } ∧
    (((List.enumFrom 0 files).filter fun q => q.2.filename ≠ "").map
        fun q => (fileOutcome (henv.envs q.1) q.2).filename) =
      (files.filter fun p => p.filename ≠ "").map FilePart.filename ∧
    (∀ (env : ConvEnv) (p : FilePart) (e : PyErr),
      (process_pdf env p.content p.filename).1 = .error e →
      fileOutcome env p = .failure p.filename e.msg) := by
  refine ⟨?_, ?_, ?_⟩
  · simp [do_POST, hpath, hct, hform, hfiles, except_bind_ok, processFiles_eq_enum]
  · have h1 := processFiles_filenames henv files 0
    rw [processFiles_eq_enum] at h1
    simpa [Function.comp] using h1
  · intro env p e he
    unfold fileOutcome
    rw [he]

/-- Witness for C1: a batch of three parts (one valid PDF, one whose
write raises, one with an empty filename) on a concrete request. -/
theorem multipart_batch_isolation_witness :
    (do_POST
        ⟨fun i => if i = 1 then ⟨"/tmp/t1.pdf", some ⟨"disk full"⟩, fun _ => .ok [], true⟩
          else ⟨"/tmp/t0.pdf", none, fun _ => .ok [.ok (some "hi")], true⟩⟩
        ⟨"POST", "/convert", some "multipart/form-data; boundary=X",
          .ok ⟨some [⟨"a.pdf", [1]⟩, ⟨"b.pdf", [2]⟩, ⟨"", [3]⟩]⟩,
          .error ⟨"unused"⟩⟩ : Except PyErr Response) = .ok
      { status := 200
        headers := [("Content-Type", "application/json"),
          ("Access-Control-Allow-Origin", "*")]
        body := .jsonOutcomes (((List.enumFrom 0
              [(⟨"a.pdf", [1]⟩ : FilePart), ⟨"b.pdf", [2]⟩, ⟨"", [3]⟩]).filter
            fun q => q.2.filename ≠ "").map
          fun q => fileOutcome
            ((if q.1 = 1 then ⟨"/tmp/t1.pdf", some ⟨"disk full"⟩, fun _ => .ok [], true⟩
              else ⟨"/tmp/t0.pdf", none, fun _ => .ok [.ok (some "hi")], true⟩ : ConvEnv)) q.2) } :=
  (multipart_batch_isolation
    ⟨fun i => if i = 1 then ⟨"/tmp/t1.pdf", some ⟨"disk full"⟩, fun _ => .ok [], true⟩
      else ⟨"/tmp/t0.pdf", none, fun _ => .ok [.ok (some "hi")], true⟩⟩
    ⟨"POST", "/convert", some "multipart/form-data; boundary=X",
      .ok ⟨some [⟨"a.pdf", [1]⟩, ⟨"b.pdf", [2]⟩, ⟨"", [3]⟩]⟩,
      .error ⟨"unused"⟩⟩
    ⟨some [⟨"a.pdf", [1]⟩, ⟨"b.pdf", [2]⟩, ⟨"", [3]⟩]⟩
    [⟨"a.pdf", [1]⟩, ⟨"b.pdf", [2]⟩, ⟨"", [3]⟩]
    rfl rfl rfl rfl).1

/-! ## C7: the OPTIONS preflight branch is dead code -/

/-- C7 (code bug): no request `do_POST` handles — whatever its method,
path, headers, body or the collaborators\' behaviour — is ever answered
with the CORS preflight response (HTTP 200, empty body, the three CORS
headers): requests with path `/convert` are captured by the outer `if`
and get a JSON 200, a 404 or a propagated exception, and for any other
path the `elif` condition is false; moreover the base server would
dispatch OPTIONS to `do_OPTIONS`, which does not exist, never to
`do_POST`.  The spec\'s promised preflight behaviour is unreachable. -/
theorem options_preflight_unreachable (henv : HandlerEnv) (req : Request) :
    do_POST henv req ≠ .ok corsPreflight := by
  unfold do_POST
  by_cases hpath : req.path = "/convert"
  · simp only [hpath, if_true]
    cases hch : parse_header req.contentType with
    | error e => simp [except_bind_err]
    | ok ct =>
      simp only [except_bind_ok]
      by_cases h1 : ct = "multipart/form-data"
      · simp only [h1, if_true]
        cases hf : req.form with
        | error e => simp [except_bind_err]
        | ok form =>
          simp only [except_bind_ok]
          intro hcontra
          simp only [pure, Except.pure, Except.ok.injEq] at hcontra
          have := congrArg Response.headers hcontra
          simp [corsPreflight] at this
      · simp only [h1, if_false]
        by_cases h2 : ct = "application/json"
        · simp only [h2, if_true]
          cases hj : req.jsonBody with
          | error e => simp [except_bind_err]
          | ok payload =>
            simp only [except_bind_ok]
            by_cases h3 : payload.action = some "download_all"
            · simp only [h3, if_true]
              intro hcontra
              simp only [pure, Except.pure, Except.ok.injEq] at hcontra
              have := congrArg Response.headers hcontra
              simp [corsPreflight] at this
            · simp only [h3, if_false]
              intro hcontra
              simp only [pure, Except.pure, Except.ok.injEq] at hcontra
              have := congrArg Response.status hcontra
              simp [corsPreflight, notFoundResp] at this
        · simp only [h2, if_false]
          intro hcontra
          simp only [pure, Except.pure, Except.ok.injEq] at hcontra
          have := congrArg Response.status hcontra
          simp [corsPreflight, notFoundResp] at this
  · rw [if_neg hpath,
      if_neg (fun h => hpath h.1 : ¬(req.path = "/convert" ∧ req.command = "OPTIONS"))]
    intro hcontra
    simp only [pure, Except.pure, Except.ok.injEq] at hcontra
    have := congrArg Response.status hcontra
    simp [corsPreflight, notFoundResp] at this


/-! ## C8: missing/unparsable content type: 404 or raise? -/

/-- C8 counterexample: a POST to `/convert` with NO `Content-Type`
header is not answered with the generic 404 — `cgi.parse_header(None)`
raises a `TypeError` which propagates out of the handler unanswered. -/
theorem missing_content_type_raises :
    (do_POST ⟨fun _ => ⟨"/tmp/t.pdf", none, fun _ => .ok [], true⟩⟩
        ⟨"POST", "/convert", none, .ok ⟨none⟩, .ok ⟨none, []⟩⟩ : Except PyErr Response) =
      .error ⟨"TypeError: can only concatenate str (not \"NoneType\") to str"⟩ ∧
    (do_POST ⟨fun _ => ⟨"/tmp/t.pdf", none, fun _ => .ok [], true⟩⟩
        ⟨"POST", "/convert", none, .ok ⟨none⟩, .ok ⟨none, []⟩⟩ : Except PyErr Response) ≠
      .ok notFoundResp := by
  have h0 : (do_POST ⟨fun _ => ⟨"/tmp/t.pdf", none, fun _ => .ok [], true⟩⟩
      ⟨"POST", "/convert", none, .ok ⟨none⟩, .ok ⟨none, []⟩⟩ : Except PyErr Response) =
      .error ⟨"TypeError: can only concatenate str (not \"NoneType\") to str"⟩ := rfl
  exact ⟨h0, fun h => Except.noConfusion (h0.symm.trans h)⟩

/-- C8 (amended): a POST to `/convert` whose `Content-Type` header is
present but names neither `multipart/form-data` nor `application/json`
falls through to the generic 404 `Not Found` response; but a missing
`Content-Type` header makes `cgi.parse_header(None)` raise a
`TypeError`, and a multipart body the form parser rejects makes
`cgi.FieldStorage` raise — in both of those cases the exception
propagates instead of any 404. -/
theorem invalid_requests_404_or_raise (henv : HandlerEnv) (req : Request)
    (hpath : req.path = "/convert") :
    (req.contentType = none →
      do_POST henv req =
        .error ⟨"TypeError: can only concatenate str (not \"NoneType\") to str"⟩) ∧
    (∀ t, parse_header req.contentType = .ok t →
      t ≠ "multipart/form-data" → t ≠ "application/json" →
      do_POST henv req = .ok notFoundResp) ∧
    (∀ e, parse_header req.contentType = .ok "multipart/form-data" →
      req.form = .error e → do_POST henv req = .error e) := by
  refine ⟨?_, ?_, ?_⟩
  · intro hct
    simp [do_POST, hpath, hct, parse_header, except_bind_err]
  · intro t ht h1 h2
    simp [do_POST, hpath, ht, except_bind_ok, h1, h2]
    rfl
  · intro e ht hf
    simp [do_POST, hpath, ht, hf, except_bind_ok, except_bind_err]

/-- Witness for C8 (amended) on a concrete `text/plain` POST and a
concrete malformed multipart body. -/
theorem invalid_requests_404_or_raise_witness :
    (do_POST ⟨fun _ => ⟨"/tmp/t.pdf", none, fun _ => .ok [], true⟩⟩
        ⟨"POST", "/convert", some "text/plain", .ok ⟨none⟩, .ok ⟨none, []⟩⟩ :
        Except PyErr Response) = .ok notFoundResp ∧
    (do_POST ⟨fun _ => ⟨"/tmp/t.pdf", none, fun _ => .ok [], true⟩⟩
        ⟨"POST", "/convert", some "multipart/form-data",
          .error ⟨"ValueError: Invalid boundary in multipart form"⟩, .ok ⟨none, []⟩⟩ :
        Except PyErr Response) =
      .error ⟨"ValueError: Invalid boundary in multipart form"⟩ :=
  ⟨(invalid_requests_404_or_raise
      ⟨fun _ => ⟨"/tmp/t.pdf", none, fun _ => .ok [], true⟩⟩
      ⟨"POST", "/convert", some "text/plain", .ok ⟨none⟩, .ok ⟨none, []⟩⟩
      rfl).2.1 "text/plain" rfl (by decide) (by decide),
   (invalid_requests_404_or_raise
      ⟨fun _ => ⟨"/tmp/t.pdf", none, fun _ => .ok [], true⟩⟩
      ⟨"POST", "/convert", some "multipart/form-data",
        .error ⟨"ValueError: Invalid boundary in multipart form"⟩, .ok ⟨none, []⟩⟩
      rfl).2.2 ⟨"ValueError: Invalid boundary in multipart form"⟩ rfl rfl⟩

/-! ## C6: temp-file cleanup -/

/-- C6 counterexample: when the temp-file write itself raises
(`writeErr = some e`), `process_pdf` exits by exception with no unlink
attempt at all — the file created is NOT deleted on this exit path, so
deletion does not happen "on every exit path, including exception". -/
theorem temp_file_leak_on_write_failure :
    (process_pdf ⟨"/tmp/leak.pdf", some ⟨"No space left on device"⟩,
        fun _ => .ok [], true⟩ [1, 2] "a.pdf").2 = [.create "/tmp/leak.pdf"] ∧
    FsEvent.unlinkAttempt "/tmp/leak.pdf" ∉
      (process_pdf ⟨"/tmp/leak.pdf", some ⟨"No space left on device"⟩,
        fun _ => .ok [], true⟩ [1, 2] "a.pdf").2 ∧
    (process_pdf ⟨"/tmp/leak.pdf", some ⟨"No space left on device"⟩,
        fun _ => .ok [], true⟩ [1, 2] "a.pdf").1 =
      .error ⟨"No space left on device"⟩ := by
  exact ⟨rfl, by decide, rfl⟩

/-- C6 (amended): once the temp file has been written without raising,
`os.unlink` is attempted on every exit path of the protected region —
conversion success and conversion failure alike, for every collaborator
behaviour — and a failing unlink is swallowed silently: the function
result does not depend on whether the unlink succeeded. -/
theorem temp_cleanup_after_write (env : ConvEnv) (fd : List Nat) (fn : String)
    (hw : env.writeErr = none) :
    FsEvent.unlinkAttempt env.tempName ∈ (process_pdf env fd fn).2 ∧
    ∀ (b : Bool), (process_pdf { env with unlinkOk := b } fd fn).1 =
      (process_pdf env fd fn).1 := by
  constructor
  · simp [process_pdf, hw]
  · intro b
    simp only [process_pdf, hw]
    rfl

/-- Witness for C6 (amended) on a concrete failing conversion whose
unlink also fails. -/
theorem temp_cleanup_after_write_witness :
    FsEvent.unlinkAttempt "/tmp/w.pdf" ∈
      (process_pdf ⟨"/tmp/w.pdf", none, fun _ => .error ⟨"bad"⟩, false⟩
        [9] "w.pdf").2 ∧
    ∀ (b : Bool),
      (process_pdf ⟨"/tmp/w.pdf", none, fun _ => .error ⟨"bad"⟩, b⟩ [9] "w.pdf").1 =
        (process_pdf ⟨"/tmp/w.pdf", none, fun _ => .error ⟨"bad"⟩, false⟩
          [9] "w.pdf").1 :=
  temp_cleanup_after_write ⟨"/tmp/w.pdf", none, fun _ => .error ⟨"bad"⟩, false⟩
    [9] "w.pdf" rfl

/-! ## C10: write failures bypass the conversion function\'s catch -/

/-- C10: the uploaded bytes are written to the temp file before the
protected region, so a raise while creating/writing the temp file
propagates out of `process_pdf` (never a `{success: false}` record from
it), and it is the upload handler\'s surrounding catch (`fileOutcome`)
that turns that fault into the failure entry. -/
theorem write_failure_propagates (env : ConvEnv) (fd : List Nat) (fn : String)
    (e : PyErr) (hw : env.writeErr = some e) :
    (process_pdf env fd fn).1 = .error e ∧
    (∀ out, (process_pdf env fd fn).1 ≠ .ok out) ∧
    ∀ (p : FilePart), p.content = fd → p.filename = fn →
      fileOutcome env p = .failure fn e.msg := by
  have h1 : (process_pdf env fd fn).1 = .error e := by
    rw [process_pdf_fst, hw]
  refine ⟨h1, ?_, ?_⟩
  · intro out hcontra
    rw [h1] at hcontra
    exact Except.noConfusion hcontra
  · intro p hc hn
    unfold fileOutcome
    rw [hc, hn, h1]

/-- Witness for C10 at a concrete disk-full write failure. -/
theorem write_failure_propagates_witness :
    (process_pdf ⟨"/tmp/full.pdf", some ⟨"OSError: disk full"⟩, fun _ => .ok [], true⟩
        [7] "big.pdf").1 = .error ⟨"OSError: disk full"⟩ ∧
    (∀ out, (process_pdf ⟨"/tmp/full.pdf", some ⟨"OSError: disk full"⟩,
        fun _ => .ok [], true⟩ [7] "big.pdf").1 ≠ .ok out) ∧
    ∀ (p : FilePart), p.content = [7] → p.filename = "big.pdf" →
      fileOutcome ⟨"/tmp/full.pdf", some ⟨"OSError: disk full"⟩, fun _ => .ok [], true⟩ p =
        .failure "big.pdf" "OSError: disk full" :=
  write_failure_propagates
    ⟨"/tmp/full.pdf", some ⟨"OSError: disk full"⟩, fun _ => .ok [], true⟩
    [7] "big.pdf" ⟨"OSError: disk full"⟩ rfl

/-! ## C9: the command-line variant -/

/-- C9 (spec-modelled tail): `convert_pdf_to_json` writes the JSON
document to one output file and returns that file\'s path; the path is
the caller\'s `output_path` when supplied, and otherwise is derived from
the input file\'s basename (stem of the basename + `.json`). -/
theorem cli_conversion_output_path
    (parse : Except PyErr (List (Except PyErr (Option String))))
    (pdf_path : String) (pages : List PageRecord)
    (hp : extract_text_from_pdf parse = .ok pages) :
    (∀ given, ∃ text, convert_pdf_to_json parse pdf_path (some given) =
      .ok (given, [(given, text)])) ∧
    (∃ text, convert_pdf_to_json parse pdf_path none =
      .ok (splitext_root (os_basename pdf_path) ++ ".json",
        [(splitext_root (os_basename pdf_path) ++ ".json", text)])) := by
  constructor
  · intro given
    refine ⟨json_dumps2 (docToJValue
      ⟨os_basename pdf_path, pages.length, pages⟩), ?_⟩
    simp [convert_pdf_to_json, hp, except_bind_ok]
  · refine ⟨json_dumps2 (docToJValue
      ⟨os_basename pdf_path, pages.length, pages⟩), ?_⟩
    simp [convert_pdf_to_json, hp, except_bind_ok]

/-- Witness for C9 on a concrete path `docs/report.pdf`. -/
theorem cli_conversion_output_path_witness :
    (∀ given, ∃ text, convert_pdf_to_json (.ok []) "docs/report.pdf" (some given) =
      .ok (given, [(given, text)])) ∧
    (∃ text, convert_pdf_to_json (.ok []) "docs/report.pdf" none =
      .ok (splitext_root (os_basename "docs/report.pdf") ++ ".json",
        [(splitext_root (os_basename "docs/report.pdf") ++ ".json", text)])) :=
  cli_conversion_output_path (.ok []) "docs/report.pdf" [] rfl

/-! ## C5: archive member naming is literal substring replacement -/

theorem pyReplaceL_no_occurrence (old new : List Char) (hold : old ≠ []) :
    ∀ s, ¬ old <:+: s → pyReplaceL old new s = s := by
  intro s
  induction s with
  | nil => intro _; rw [pyReplaceL, dif_neg hold]
  | cons c cs ih =>
    intro hni
    rw [pyReplaceL, dif_neg hold]
    have hpre : old.isPrefixOf (c :: cs) = false := by
      rw [Bool.eq_false_iff]
      intro hb
      exact hni (List.isPrefixOf_iff_prefix.mp hb).isInfix
    simp only [hpre, Bool.false_eq_true, if_false]
    rw [ih (fun h => hni (List.infix_cons h))]

/-- C5: an entry with both `filename` and `data` contributes the member
`filename.replace('.pdf', '.json')`: plain left-to-right replacement of
every occurrence of the literal substring `.pdf` (mid-name occurrences
included, as `my.pdfs.txt → my.jsons.txt` and `a.pdf.pdf → a.json.json`
show), and a filename containing no `.pdf` at all is used unchanged. -/
theorem zip_member_names (entries : List ZipEntry) (fn : String) (d : JValue)
    (h : ZipEntry.mk (some fn) (some d) ∈ entries) :
    (pyReplace fn ".pdf" ".json", json_dumps2 d) ∈ create_zip_package entries ∧
    (¬ (".pdf".data <:+: fn.data) → pyReplace fn ".pdf" ".json" = fn) ∧
    pyReplace "report.pdf" ".pdf" ".json" = "report.json" ∧
    pyReplace "a.pdf.pdf" ".pdf" ".json" = "a.json.json" ∧
    pyReplace "my.pdfs.txt" ".pdf" ".json" = "my.jsons.txt" ∧
    pyReplace "notes.txt" ".pdf" ".json" = "notes.txt" := by
  refine ⟨?_, ?_, by simp [pyReplace, pyReplaceL]; rfl, by simp [pyReplace, pyReplaceL]; rfl,
    by simp [pyReplace, pyReplaceL]; rfl, by simp [pyReplace, pyReplaceL]; rfl⟩
  · exact List.mem_filterMap.mpr ⟨_, h, rfl⟩
  · intro hni
    unfold pyReplace
    rw [pyReplaceL_no_occurrence _ _ (by decide) _ hni]
    rfl

/-- Witness for C5 on a concrete one-entry batch. -/
theorem zip_member_names_witness :
    (pyReplace "report.pdf" ".pdf" ".json", json_dumps2 (.num 3)) ∈
      create_zip_package [⟨some "report.pdf", some (.num 3)⟩] ∧
    (¬ (".pdf".data <:+: "notes.txt".data) →
      pyReplace "notes.txt" ".pdf" ".json" = "notes.txt") :=
  ⟨(zip_member_names [⟨some "report.pdf", some (.num 3)⟩] "report.pdf" (.num 3)
      (by simp)).1,
   fun h => (zip_member_names [⟨some "notes.txt", some (.num 3)⟩] "notes.txt" (.num 3)
      (by simp)).2.1 h⟩


/-! ## C4 groundwork: characters, digits, whitespace -/

theorem char_toNat_ofNat {n : Nat} (h : Nat.isValidChar n) : (Char.ofNat n).toNat = n := by
  simp [Char.ofNat, h, Char.ofNatAux, Char.toNat]
  rfl

theorem char_toNat_ofNat_small {n : Nat} (h : n < 0xD800) : (Char.ofNat n).toNat = n :=
  char_toNat_ofNat (Or.inl h)

theorem char_ne_of_toNat_ne {c d : Char} (h : c.toNat ≠ d.toNat) : c ≠ d :=
  fun e => h (congrArg Char.toNat e)

theorem char_toNat_valid (c : Char) :
    c.toNat < 0xD800 ∨ (0xDFFF < c.toNat ∧ c.toNat < 0x110000) := by
  have h := c.valid
  unfold UInt32.isValidChar at h
  rcases h with h | ⟨h1, h2⟩
  · exact Or.inl h
  · exact Or.inr ⟨h1, h2⟩

theorem hexVal_hexDig {k : Nat} (h : k < 16) : hexVal? (hexDig k) = some k := by
  interval_cases k <;> decide

theorem hex4Val_hex4 {n : Nat} (h : n < 65536) :
    hex4Val (hexDig (n / 4096 % 16)) (hexDig (n / 256 % 16))
      (hexDig (n / 16 % 16)) (hexDig (n % 16)) = some n := by
  unfold hex4Val
  rw [hexVal_hexDig (by omega), hexVal_hexDig (by omega),
    hexVal_hexDig (by omega), hexVal_hexDig (by omega)]
  show some _ = some n
  congr 1
  omega

theorem natDigits_digits (n : Nat) : ∀ c ∈ natDigits n, 48 ≤ c.toNat ∧ c.toNat ≤ 57 := by
  induction n using Nat.strong_induction_on with
  | _ n ih =>
    rw [natDigits]
    by_cases h : n < 10
    · simp only [h, dif_pos]
      intro c hc
      simp only [List.mem_singleton] at hc
      subst hc
      rw [char_toNat_ofNat_small (by omega)]
      omega
    · simp only [h, dif_neg, not_false_iff]
      intro c hc
      rcases List.mem_append.mp hc with hm | hm
      · exact ih (n / 10) (Nat.div_lt_self (by omega) (by omega)) c hm
      · simp only [List.mem_singleton] at hm
        subst hm
        rw [char_toNat_ofNat_small (by omega)]
        omega

theorem natDigits_shape (n : Nat) :
    ∃ d t, natDigits n = d :: t ∧ isDigitChar d = true := by
  induction n using Nat.strong_induction_on with
  | _ n ih =>
    rw [natDigits]
    by_cases h : n < 10
    · refine ⟨Char.ofNat (48 + n), [], by simp [h], ?_⟩
      simp [isDigitChar, char_toNat_ofNat_small (show 48 + n < 0xD800 by omega)]
      omega
    · obtain ⟨d, t, hdt, hd⟩ := ih (n / 10) (Nat.div_lt_self (by omega) (by omega))
      exact ⟨d, t ++ [Char.ofNat (48 + n % 10)], by simp [h, hdt], hd⟩

theorem takeDigits_all (ds : List Char) (hds : ∀ c ∈ ds, isDigitChar c = true) :
    ∀ rest, noDigitStart rest → takeDigits (ds ++ rest) = (ds, rest) := by
  induction ds with
  | nil =>
    intro rest hr
    cases rest with
    | nil => rfl
    | cons c cs =>
      simp only [noDigitStart] at hr
      simp [takeDigits, hr]
  | cons d ds ih =>
    intro rest hr
    have hd := hds d (by simp)
    simp [takeDigits, hd, ih (fun c hc => hds c (by simp [hc])) rest hr]

theorem digitsVal_append (a : List Char) :
    ∀ (b : List Char) (acc : Nat), digitsVal (a ++ b) acc = digitsVal b (digitsVal a acc) := by
  induction a with
  | nil => intro b acc; rfl
  | cons c cs ih => intro b acc; simp [digitsVal, ih]

theorem digitsVal_natDigits (n : Nat) :
    ∀ acc, digitsVal (natDigits n) acc = acc * 10 ^ (natDigits n).length + n := by
  induction n using Nat.strong_induction_on with
  | _ n ih =>
    intro acc
    rw [natDigits]
    by_cases h : n < 10
    · simp only [h, dif_pos]
      simp [digitsVal, char_toNat_ofNat_small (show 48 + n < 0xD800 by omega)]
      try omega
    · simp only [h, dif_neg, not_false_iff]
      rw [digitsVal_append, ih (n / 10) (Nat.div_lt_self (by omega) (by omega)) acc]
      simp only [digitsVal, List.length_append, List.length_singleton]
      rw [char_toNat_ofNat_small (by omega)]
      rw [pow_succ]
      have hmod : n % 10 = n - n / 10 * 10 := by omega
      generalize 10 ^ (natDigits (n / 10)).length = k
      have : acc * k * 10 + (n / 10) * 10 + n % 10 = acc * (k * 10) + n := by
        rw [Nat.mul_assoc]
        omega
      omega

theorem isJsonWs_digit_false {c : Char} (h : 48 ≤ c.toNat ∧ c.toNat ≤ 57) :
    isJsonWs c = false := by
  have h1 : c ≠ ' ' := char_ne_of_toNat_ne (by
    rw [show (' ' : Char).toNat = 32 from rfl]; omega)
  have h2 : c ≠ Char.ofNat 9 := char_ne_of_toNat_ne (by
    rw [char_toNat_ofNat_small (by omega)]; omega)
  have h3 : c ≠ Char.ofNat 10 := char_ne_of_toNat_ne (by
    rw [char_toNat_ofNat_small (by omega)]; omega)
  have h4 : c ≠ Char.ofNat 13 := char_ne_of_toNat_ne (by
    rw [char_toNat_ofNat_small (by omega)]; omega)
  simp [isJsonWs, h1, h2, h3, h4]

theorem skipWs_cons_not {c : Char} (l : List Char) (h : isJsonWs c = false) :
    skipWs (c :: l) = c :: l := by
  simp [skipWs, h]

theorem skipWs_ws_append (pre : List Char) (h : ∀ c ∈ pre, isJsonWs c = true) :
    ∀ l, skipWs (pre ++ l) = skipWs l := by
  induction pre with
  | nil => intro l; rfl
  | cons c cs ih =>
    intro l
    simp [skipWs, h c (by simp), ih (fun x hx => h x (by simp [hx]))]

theorem nlIndent_ws (lvl : Nat) : ∀ c ∈ nlIndent lvl, isJsonWs c = true := by
  intro c hc
  unfold nlIndent at hc
  rcases List.mem_cons.mp hc with rfl | hm
  · rfl
  · rw [List.eq_of_mem_replicate hm]
    rfl

theorem skipWs_nl (lvl : Nat) (l : List Char) :
    skipWs (nlIndent lvl ++ l) = skipWs l :=
  skipWs_ws_append (nlIndent lvl) (nlIndent_ws lvl) l

theorem parseValue_skipWs_congr (fuel : Nat) {l1 l2 : List Char}
    (h : skipWs l1 = skipWs l2) : parseValue fuel l1 = parseValue fuel l2 := by
  cases fuel with
  | zero => rfl
  | succ f =>
    show parseValue (f + 1) l1 = parseValue (f + 1) l2
    rw [parseValue, parseValue, h]


/-! ## C4: string escaping round-trip -/

theorem parseStringBody_escChar (c : Char) :
    ∀ (X acc : List Char),
    parseStringBody (escChar c ++ X) acc = parseStringBody X (c :: acc) := by
  intro X acc
  unfold escChar
  by_cases h1 : c = '"'
  · subst h1
    rw [if_pos rfl]
    rw [show (['\\', '"'] ++ X) = '\\' :: '"' :: X from rfl, parseStringBody]
    simp [readEscape]
  rw [if_neg h1]
  by_cases h2 : c = '\\'
  · subst h2
    rw [if_pos rfl]
    rw [show (['\\', '\\'] ++ X) = '\\' :: '\\' :: X from rfl, parseStringBody]
    simp [readEscape]
  rw [if_neg h2]
  by_cases h3 : c.toNat = 0x08
  · rw [if_pos h3]
    rw [show (['\\', 'b'] ++ X) = '\\' :: 'b' :: X from rfl, parseStringBody]
    simp [readEscape]
    rw [show Char.ofNat 8 = c from by rw [← h3]; exact Char.ofNat_toNat c]
  rw [if_neg h3]
  by_cases h4 : c.toNat = 0x09
  · rw [if_pos h4]
    rw [show (['\\', 't'] ++ X) = '\\' :: 't' :: X from rfl, parseStringBody]
    simp [readEscape]
    rw [show Char.ofNat 9 = c from by rw [← h4]; exact Char.ofNat_toNat c]
  rw [if_neg h4]
  by_cases h5 : c.toNat = 0x0A
  · rw [if_pos h5]
    rw [show (['\\', 'n'] ++ X) = '\\' :: 'n' :: X from rfl, parseStringBody]
    simp [readEscape]
    rw [show ('\n' : Char) = c from by
      rw [show ('\n' : Char) = Char.ofNat 10 from rfl, ← h5]
      exact Char.ofNat_toNat c]
  rw [if_neg h5]
  by_cases h6 : c.toNat = 0x0C
  · rw [if_pos h6]
    rw [show (['\\', 'f'] ++ X) = '\\' :: 'f' :: X from rfl, parseStringBody]
    simp [readEscape]
    rw [show Char.ofNat 12 = c from by rw [← h6]; exact Char.ofNat_toNat c]
  rw [if_neg h6]
  by_cases h7 : c.toNat = 0x0D
  · rw [if_pos h7]
    rw [show (['\\', 'r'] ++ X) = '\\' :: 'r' :: X from rfl, parseStringBody]
    simp [readEscape]
    rw [show Char.ofNat 13 = c from by rw [← h7]; exact Char.ofNat_toNat c]
  rw [if_neg h7]
  by_cases h8 : 0x20 ≤ c.toNat ∧ c.toNat ≤ 0x7E
  · rw [if_pos h8]
    rw [show ([c] ++ X) = c :: X from rfl, parseStringBody]
    rw [if_neg h1, if_neg h2, if_neg (show ¬ c.toNat < 0x20 by omega)]
  rw [if_neg h8]
  by_cases h9 : c.toNat < 0x10000
  · rw [if_pos h9]
    have hre : ('\\' :: 'u' :: hex4 c.toNat ++ X) =
        '\\' :: 'u' :: hexDig (c.toNat / 4096 % 16) :: hexDig (c.toNat / 256 % 16) ::
          hexDig (c.toNat / 16 % 16) :: hexDig (c.toNat % 16) :: X := by
      simp [hex4]
    rw [hre, parseStringBody]
    have hval := char_toNat_valid c
    simp [readEscape, hex4Val_hex4 h9,
      show ¬(55296 ≤ c.toNat ∧ c.toNat ≤ 56319) by omega]
  · rw [if_neg h9]
    have hval := char_toNat_valid c
    have hre : ('\\' :: 'u' :: hex4 (0xD800 + (c.toNat - 0x10000) / 0x400) ++
          '\\' :: 'u' :: hex4 (0xDC00 + (c.toNat - 0x10000) % 0x400) ++ X) =
        '\\' :: 'u' :: hexDig ((0xD800 + (c.toNat - 0x10000) / 0x400) / 4096 % 16) ::
        hexDig ((0xD800 + (c.toNat - 0x10000) / 0x400) / 256 % 16) ::
        hexDig ((0xD800 + (c.toNat - 0x10000) / 0x400) / 16 % 16) ::
        hexDig ((0xD800 + (c.toNat - 0x10000) / 0x400) % 16) ::
        '\\' :: 'u' :: hexDig ((0xDC00 + (c.toNat - 0x10000) % 0x400) / 4096 % 16) ::
        hexDig ((0xDC00 + (c.toNat - 0x10000) % 0x400) / 256 % 16) ::
        hexDig ((0xDC00 + (c.toNat - 0x10000) % 0x400) / 16 % 16) ::
        hexDig ((0xDC00 + (c.toNat - 0x10000) % 0x400) % 16) :: X := by
      simp [hex4]
    rw [hre, parseStringBody]
    rw [readEscape]
    simp [hex4Val_hex4 (show 0xD800 + (c.toNat - 0x10000) / 0x400 < 65536 by omega),
      hex4Val_hex4 (show 0xDC00 + (c.toNat - 0x10000) % 0x400 < 65536 by omega),
      show 55296 ≤ 0xD800 + (c.toNat - 0x10000) / 0x400 ∧
        0xD800 + (c.toNat - 0x10000) / 0x400 ≤ 56319 by omega,
      show 56320 ≤ 0xDC00 + (c.toNat - 0x10000) % 0x400 ∧
        0xDC00 + (c.toNat - 0x10000) % 0x400 ≤ 57343 by omega]
    rw [show 65536 + (c.toNat - 65536) / 1024 * 1024 + (c.toNat - 65536) % 1024 =
        c.toNat by omega, Char.ofNat_toNat c]

theorem parseStringBody_round (s : List Char) :
    ∀ (acc rest : List Char),
    parseStringBody ((s.map escChar).flatten ++ '"' :: rest) acc =
      some ((acc.reverse ++ s).asString, rest) := by
  induction s with
  | nil =>
    intro acc rest
    rw [show ((([] : List Char).map escChar).flatten ++ '"' :: rest) = '"' :: rest from rfl,
      parseStringBody]
    simp
  | cons c cs ih =>
    intro acc rest
    simp only [List.map_cons, List.flatten_cons, List.append_assoc]
    rw [parseStringBody_escChar c _ acc, ih (c :: acc) rest]
    simp [List.append_assoc]


/-! ## C4: parsing back the serialized scalar values -/

theorem asString_data (s : String) : s.data.asString = s := rfl

theorem parse_quoteStr (fuel : Nat) (s : String) (rest : List Char) :
    parseValue (fuel + 1) (quoteStr s ++ rest) = some (.str s, rest) := by
  have hshape : quoteStr s ++ rest =
      '"' :: ((s.data.map escChar).flatten ++ '"' :: rest) := by
    simp [quoteStr]
  rw [hshape, parseValue]
  rw [skipWs_cons_not _ (by decide)]
  simp [parseStringBody_round s.data [] rest, asString_data]

theorem intRepr_natCast (n : Nat) : intRepr (n : Int) = natDigits n := by
  unfold intRepr
  rw [if_neg (by omega : ¬ ((n : Int) < 0))]
  simp

theorem parse_natNum (fuel : Nat) (n : Nat) (rest : List Char) (hr : noDigitStart rest) :
    parseValue (fuel + 1) (natDigits n ++ rest) = some (.num (n : Int), rest) := by
  obtain ⟨d, t, hdt, hd⟩ := natDigits_shape n
  have hdr : 48 ≤ d.toNat ∧ d.toNat ≤ 57 := natDigits_digits n d (by rw [hdt]; simp)
  have hall : ∀ c ∈ d :: t, isDigitChar c = true := by
    intro c hc
    have := natDigits_digits n c (by rw [hdt]; exact hc)
    simp [isDigitChar]
    omega
  have hv := digitsVal_natDigits n 0
  rw [hdt] at hv
  simp only [Nat.zero_mul, Nat.zero_add] at hv
  have hn : d ≠ 'n' := char_ne_of_toNat_ne (by
    rw [show ('n' : Char).toNat = 110 from rfl]; omega)
  have ht : d ≠ 't' := char_ne_of_toNat_ne (by
    rw [show ('t' : Char).toNat = 116 from rfl]; omega)
  have hf : d ≠ 'f' := char_ne_of_toNat_ne (by
    rw [show ('f' : Char).toNat = 102 from rfl]; omega)
  have hq : d ≠ '"' := char_ne_of_toNat_ne (by
    rw [show ('"' : Char).toNat = 34 from rfl]; omega)
  have hbr : d ≠ '[' := char_ne_of_toNat_ne (by
    rw [show ('[' : Char).toNat = 91 from rfl]; omega)
  have hbc : d ≠ '{' := char_ne_of_toNat_ne (by
    rw [show ('{' : Char).toNat = 123 from rfl]; omega)
  have hm : d ≠ '-' := char_ne_of_toNat_ne (by
    rw [show ('-' : Char).toNat = 45 from rfl]; omega)
  have hdig : isDigitChar d = true := by simp [isDigitChar]; omega
  have htd : takeDigits (d :: (t ++ rest)) = (d :: t, rest) := by
    have := takeDigits_all (d :: t) hall rest hr
    simpa using this
  rw [hdt, show (d :: t) ++ rest = d :: (t ++ rest) from rfl, parseValue]
  rw [skipWs_cons_not _ (isJsonWs_digit_false hdr)]
  simp [hn, ht, hf, hq, hbr, hbc, hm, hdig, htd, hv]

theorem parse_null (fuel lvl : Nat) (rest : List Char) :
    parseValue (fuel + 1) (jdump lvl .null ++ rest) = some (.null, rest) := by
  rw [show (jdump lvl .null ++ rest) = 'n' :: 'u' :: 'l' :: 'l' :: rest from rfl, parseValue]
  rw [skipWs_cons_not _ (by decide)]
  simp

theorem parse_jcontent (fuel lvl : Nat) (c : Option String) (rest : List Char) :
    parseValue (fuel + 1) (jdump lvl (jcontent c) ++ rest) = some (jcontent c, rest) := by
  cases c with
  | none => exact parse_null fuel lvl rest
  | some s =>
    rw [show jcontent (some s) = .str s from rfl,
      show jdump lvl (.str s) = quoteStr s from rfl]
    exact parse_quoteStr fuel s rest

theorem skipWs_space (l : List Char) : skipWs (' ' :: l) = skipWs l := by
  rw [skipWs]
  simp [isJsonWs]

theorem parseField_round (fuel lvl : Nat) (k : String) (v : JValue) (tail : List Char)
    (hv : parseValue fuel (jdump lvl v ++ tail) = some (v, tail)) :
    parseField (fuel + 1) (jdumpField lvl (k, v) ++ tail) = some ((k, v), tail) := by
  have hshape : jdumpField lvl (k, v) ++ tail =
      '"' :: ((k.data.map escChar).flatten ++ '"' :: (':' :: ' ' :: (jdump lvl v ++ tail))) := by
    simp [jdumpField, quoteStr]
  rw [hshape, parseField]
  rw [skipWs_cons_not _ (by decide)]
  have hval : parseValue fuel (' ' :: (jdump lvl v ++ tail)) = some (v, tail) := by
    rw [parseValue_skipWs_congr fuel (skipWs_space _), hv]
  simp [parseStringBody_round k.data [] _, skipWs_cons_not _ (by decide : isJsonWs ':' = false),
    hval, asString_data]


/-! ## C4: parsing back serialized objects -/

theorem quoteStr_cons (k : String) (X : List Char) :
    quoteStr k ++ X = '"' :: ((k.data.map escChar).flatten ++ '"' :: X) := by
  simp [quoteStr]

theorem jdumpField_cons (lvl : Nat) (k : String) (v : JValue) (X : List Char) :
    jdumpField lvl (k, v) ++ X =
      '"' :: ((k.data.map escChar).flatten ++ '"' :: (':' :: ' ' :: (jdump lvl v ++ X))) := by
  simp [jdumpField, quoteStr]

theorem parseField_skipWs_congr (fuel : Nat) {l1 l2 : List Char}
    (h : skipWs l1 = skipWs l2) : parseField fuel l1 = parseField fuel l2 := by
  cases fuel with
  | zero => rfl
  | succ f =>
    show parseField (f + 1) l1 = parseField (f + 1) l2
    rw [parseField, parseField, h]

theorem noDigit_nl (lvl : Nat) (l : List Char) : noDigitStart (nlIndent lvl ++ l) := by
  simp [nlIndent, noDigitStart, isDigitChar]

theorem noDigit_comma (l : List Char) : noDigitStart (',' :: l) := by
  simp [noDigitStart, isDigitChar]

/-- Tail after a field inside an object body never starts with a digit:
it is `,` before another field or the newline before `}`. -/
theorem noDigit_fields_tail (lvl lvlEnd : Nat) (fs : List (String × JValue))
    (rest : List Char) :
    noDigitStart (jdumpFields lvl fs ++ (nlIndent lvlEnd ++ '}' :: rest)) := by
  cases fs with
  | nil => simpa [jdumpFields] using noDigit_nl lvlEnd ('}' :: rest)
  | cons f fs => simp [jdumpFields, noDigitStart, isDigitChar]

/-- Parse the remaining fields of an object whose values all re-parse at
any fuel (scalar values). -/
theorem parse_scalar_fields (fs : List (String × JValue))
    (hfs : ∀ f ∈ fs, ∀ (fuel lvl : Nat) (rest : List Char), noDigitStart rest →
      parseValue (fuel + 1) (jdump lvl f.2 ++ rest) = some (f.2, rest)) :
    ∀ (fuel lvl lvlEnd : Nat) (rest : List Char), fs.length + 2 ≤ fuel →
    parseFields fuel (jdumpFields lvl fs ++ (nlIndent lvlEnd ++ '}' :: rest)) =
      some (fs, rest) := by
  induction fs with
  | nil =>
    intro fuel lvl lvlEnd rest hfuel
    obtain ⟨u, rfl⟩ : ∃ u, fuel = u + 1 := ⟨fuel - 1, by omega⟩
    rw [show jdumpFields lvl [] ++ (nlIndent lvlEnd ++ '}' :: rest) =
      nlIndent lvlEnd ++ '}' :: rest from by simp [jdumpFields]]
    rw [parseFields, skipWs_nl, skipWs_cons_not _ (by decide)]
    rfl
  | cons f fs ih =>
    intro fuel lvl lvlEnd rest hfuel
    obtain ⟨k, v⟩ := f
    simp only [List.length_cons] at hfuel
    obtain ⟨u, rfl⟩ : ∃ u, fuel = u + 2 := ⟨fuel - 2, by omega⟩
    have hsh : jdumpFields lvl ((k, v) :: fs) ++ (nlIndent lvlEnd ++ '}' :: rest) =
        ',' :: (nlIndent lvl ++ (jdumpField lvl (k, v) ++
          (jdumpFields lvl fs ++ (nlIndent lvlEnd ++ '}' :: rest)))) := by
      simp [jdumpFields]
    rw [hsh, show u + 2 = (u + 1) + 1 from rfl, parseFields,
      skipWs_cons_not _ (by decide)]
    have hF : parseField (u + 1)
        (nlIndent lvl ++ (jdumpField lvl (k, v) ++
          (jdumpFields lvl fs ++ (nlIndent lvlEnd ++ '}' :: rest)))) =
        some ((k, v), jdumpFields lvl fs ++ (nlIndent lvlEnd ++ '}' :: rest)) := by
      rw [parseField_skipWs_congr (u + 1) (skipWs_nl lvl _)]
      obtain ⟨w, rfl⟩ : ∃ w, u = w + 1 := ⟨u - 1, by omega⟩
      exact parseField_round (w + 1) lvl k v _
        (hfs (k, v) (by simp) w lvl _ (noDigit_fields_tail lvl lvlEnd fs rest))
    have hRest := ih (fun g hg => hfs g (by simp [hg])) (u + 1) lvl lvlEnd rest (by omega)
    simp [hF, hRest]

/-- Parse an object all of whose field values are scalars. -/
theorem parse_scalar_obj (k1 : String) (v1 : JValue) (fs : List (String × JValue))
    (h1 : ∀ (fuel lvl : Nat) (rest : List Char), noDigitStart rest →
      parseValue (fuel + 1) (jdump lvl v1 ++ rest) = some (v1, rest))
    (hfs : ∀ f ∈ fs, ∀ (fuel lvl : Nat) (rest : List Char), noDigitStart rest →
      parseValue (fuel + 1) (jdump lvl f.2 ++ rest) = some (f.2, rest)) :
    ∀ (fuel lvl : Nat) (rest : List Char), fs.length + 4 ≤ fuel →
    parseValue fuel (jdump lvl (.obj ((k1, v1) :: fs)) ++ rest) =
      some (.obj ((k1, v1) :: fs), rest) := by
  intro fuel lvl rest hfuel
  obtain ⟨u, rfl⟩ : ∃ u, fuel = u + 1 := ⟨fuel - 1, by omega⟩
  have hsh : jdump lvl (.obj ((k1, v1) :: fs)) ++ rest =
      '{' :: (nlIndent (lvl + 1) ++ (jdumpField (lvl + 1) (k1, v1) ++
        (jdumpFields (lvl + 1) fs ++ (nlIndent lvl ++ '}' :: rest)))) := by
    simp [jdump]
  rw [hsh, parseValue, skipWs_cons_not _ (by decide)]
  have hskip : skipWs (nlIndent (lvl + 1) ++ (jdumpField (lvl + 1) (k1, v1) ++
      (jdumpFields (lvl + 1) fs ++ (nlIndent lvl ++ '}' :: rest)))) =
      jdumpField (lvl + 1) (k1, v1) ++
        (jdumpFields (lvl + 1) fs ++ (nlIndent lvl ++ '}' :: rest)) := by
    rw [skipWs_nl, jdumpField_cons, skipWs_cons_not _ (by decide)]
  have hhead : (jdumpField (lvl + 1) (k1, v1) ++
      (jdumpFields (lvl + 1) fs ++ (nlIndent lvl ++ '}' :: rest))).head? = some '"' := by
    rw [jdumpField_cons]
    rfl
  have hF : parseField u (jdumpField (lvl + 1) (k1, v1) ++
      (jdumpFields (lvl + 1) fs ++ (nlIndent lvl ++ '}' :: rest))) =
      some ((k1, v1), jdumpFields (lvl + 1) fs ++ (nlIndent lvl ++ '}' :: rest)) := by
    obtain ⟨w, rfl⟩ : ∃ w, u = w + 1 := ⟨u - 1, by omega⟩
    exact parseField_round w (lvl + 1) k1 v1 _
      (by
        obtain ⟨w2, rfl⟩ : ∃ w2, w = w2 + 1 := ⟨w - 1, by omega⟩
        exact h1 w2 (lvl + 1) _ (noDigit_fields_tail (lvl + 1) lvl fs rest))
  have hRest : parseFields u (jdumpFields (lvl + 1) fs ++ (nlIndent lvl ++ '}' :: rest)) =
      some (fs, rest) :=
    parse_scalar_fields fs hfs u (lvl + 1) lvl rest (by omega)
  simp [hskip, hhead, hF, hRest]


/-! ## C4: pages and the pages array -/

theorem scalar_num (n : Nat) : ∀ (fuel lvl : Nat) (rest : List Char), noDigitStart rest →
    parseValue (fuel + 1) (jdump lvl (.num (n : Int)) ++ rest) =
      some (.num (n : Int), rest) := by
  intro fuel lvl rest hr
  rw [show jdump lvl (.num (n : Int)) = intRepr (n : Int) from rfl, intRepr_natCast]
  exact parse_natNum fuel n rest hr

theorem scalar_str (s : String) : ∀ (fuel lvl : Nat) (rest : List Char), noDigitStart rest →
    parseValue (fuel + 1) (jdump lvl (.str s) ++ rest) = some (.str s, rest) :=
  fun fuel _ rest _ => parse_quoteStr fuel s rest

theorem scalar_jcontent (c : Option String) :
    ∀ (fuel lvl : Nat) (rest : List Char), noDigitStart rest →
    parseValue (fuel + 1) (jdump lvl (jcontent c) ++ rest) = some (jcontent c, rest) :=
  fun fuel lvl rest _ => parse_jcontent fuel lvl c rest

theorem parse_page (p : PageRecord) : ∀ (fuel lvl : Nat) (rest : List Char), 7 ≤ fuel →
    parseValue fuel (jdump lvl (pageToJValue p) ++ rest) = some (pageToJValue p, rest) := by
  intro fuel lvl rest hf
  rw [show pageToJValue p = .obj (("page_number", .num (p.page_number : Int)) ::
    [("content", jcontent p.content), ("word_count", .num (p.word_count : Int)),
      ("character_count", .num (p.character_count : Int))]) from rfl]
  refine parse_scalar_obj _ _ _ (scalar_num p.page_number) ?_ fuel lvl rest (by
    simp only [List.length_cons, List.length_nil]
    omega)
  intro f hf'
  simp only [List.mem_cons, List.not_mem_nil, or_false] at hf'
  rcases hf' with rfl | rfl | rfl
  · exact scalar_jcontent p.content
  · exact scalar_num p.word_count
  · exact scalar_num p.character_count

theorem jdump_page_shape (lvl : Nat) (p : PageRecord) :
    jdump lvl (pageToJValue p) =
      '{' :: (nlIndent (lvl + 1) ++
        (jdumpField (lvl + 1) ("page_number", .num (p.page_number : Int)) ++
        (jdumpFields (lvl + 1) [("content", jcontent p.content),
          ("word_count", .num (p.word_count : Int)),
          ("character_count", .num (p.character_count : Int))] ++
        (nlIndent lvl ++ ['}'])))) := by
  simp [pageToJValue, jdump, List.append_assoc]

theorem parse_pages_items (ps : List PageRecord) :
    ∀ (fuel lvl lvlEnd : Nat) (rest : List Char), ps.length + 8 ≤ fuel →
    parseItems fuel (jdumpItems lvl (ps.map pageToJValue) ++
        (nlIndent lvlEnd ++ ']' :: rest)) =
      some (ps.map pageToJValue, rest) := by
  induction ps with
  | nil =>
    intro fuel lvl lvlEnd rest hfuel
    obtain ⟨u, rfl⟩ : ∃ u, fuel = u + 1 := ⟨fuel - 1, by omega⟩
    rw [show jdumpItems lvl (List.map pageToJValue []) ++ (nlIndent lvlEnd ++ ']' :: rest) =
      nlIndent lvlEnd ++ ']' :: rest from by simp [jdumpItems]]
    rw [parseItems, skipWs_nl, skipWs_cons_not _ (by decide)]
    rfl
  | cons p ps ih =>
    intro fuel lvl lvlEnd rest hfuel
    simp only [List.length_cons] at hfuel
    obtain ⟨u, rfl⟩ : ∃ u, fuel = u + 1 := ⟨fuel - 1, by omega⟩
    have hsh : jdumpItems lvl (List.map pageToJValue (p :: ps)) ++
        (nlIndent lvlEnd ++ ']' :: rest) =
        ',' :: (nlIndent lvl ++ (jdump lvl (pageToJValue p) ++
          (jdumpItems lvl (ps.map pageToJValue) ++ (nlIndent lvlEnd ++ ']' :: rest)))) := by
      simp [jdumpItems]
    rw [hsh, parseItems, skipWs_cons_not _ (by decide)]
    have hV : parseValue u (nlIndent lvl ++ (jdump lvl (pageToJValue p) ++
        (jdumpItems lvl (ps.map pageToJValue) ++ (nlIndent lvlEnd ++ ']' :: rest)))) =
        some (pageToJValue p,
          jdumpItems lvl (ps.map pageToJValue) ++ (nlIndent lvlEnd ++ ']' :: rest)) := by
      rw [parseValue_skipWs_congr u (skipWs_nl lvl _)]
      exact parse_page p u lvl _ (by omega)
    have hI := ih u lvl lvlEnd rest (by omega)
    simp [hV, hI]

theorem parse_pages_arr (ps : List PageRecord) :
    ∀ (fuel lvl : Nat) (rest : List Char), ps.length + 9 ≤ fuel →
    parseValue fuel (jdump lvl (.arr (ps.map pageToJValue)) ++ rest) =
      some (.arr (ps.map pageToJValue), rest) := by
  intro fuel lvl rest hfuel
  obtain ⟨u, rfl⟩ : ∃ u, fuel = u + 1 := ⟨fuel - 1, by omega⟩
  cases ps with
  | nil =>
    rw [show jdump lvl (.arr (List.map pageToJValue [])) ++ rest =
      '[' :: ']' :: rest from by simp [jdump]]
    rw [parseValue, skipWs_cons_not _ (by decide)]
    simp [skipWs_cons_not _ (by decide : isJsonWs ']' = false)]
  | cons p ps =>
    have hsh : jdump lvl (.arr (List.map pageToJValue (p :: ps))) ++ rest =
        '[' :: (nlIndent (lvl + 1) ++ (jdump (lvl + 1) (pageToJValue p) ++
          (jdumpItems (lvl + 1) (ps.map pageToJValue) ++ (nlIndent lvl ++ ']' :: rest)))) := by
      simp [jdump, List.append_assoc]
    rw [hsh, parseValue, skipWs_cons_not _ (by decide)]
    have hskip : skipWs (nlIndent (lvl + 1) ++ (jdump (lvl + 1) (pageToJValue p) ++
        (jdumpItems (lvl + 1) (ps.map pageToJValue) ++ (nlIndent lvl ++ ']' :: rest)))) =
        jdump (lvl + 1) (pageToJValue p) ++
          (jdumpItems (lvl + 1) (ps.map pageToJValue) ++ (nlIndent lvl ++ ']' :: rest)) := by
      rw [skipWs_nl, jdump_page_shape]
      exact skipWs_cons_not _ (by decide)
    have hhead : (jdump (lvl + 1) (pageToJValue p) ++
        (jdumpItems (lvl + 1) (ps.map pageToJValue) ++
          (nlIndent lvl ++ ']' :: rest))).head? = some '{' := by
      rw [jdump_page_shape]
      rfl
    simp only [List.length_cons] at hfuel
    have hV : parseValue u (jdump (lvl + 1) (pageToJValue p) ++
        (jdumpItems (lvl + 1) (ps.map pageToJValue) ++ (nlIndent lvl ++ ']' :: rest))) =
        some (pageToJValue p,
          jdumpItems (lvl + 1) (ps.map pageToJValue) ++ (nlIndent lvl ++ ']' :: rest)) :=
      parse_page p u (lvl + 1) _ (by omega)
    have hI := parse_pages_items ps u (lvl + 1) lvl rest (by omega)
    simp [hskip, hhead, hV, hI]


/-! ## C4: the document object -/

theorem parse_doc_fields (d : DocumentResult) :
    ∀ (fuel lvl lvlEnd : Nat) (rest : List Char), d.pages.length + 12 ≤ fuel →
    parseFields fuel (jdumpFields lvl
        [("total_pages", .num (d.total_pages : Int)),
          ("pages", .arr (d.pages.map pageToJValue))] ++
      (nlIndent lvlEnd ++ '}' :: rest)) =
      some ([("total_pages", .num (d.total_pages : Int)),
        ("pages", .arr (d.pages.map pageToJValue))], rest) := by
  intro fuel lvl lvlEnd rest hfuel
  obtain ⟨u, rfl⟩ : ∃ u, fuel = u + 4 := ⟨fuel - 4, by omega⟩
  have hsh : jdumpFields lvl
      [("total_pages", JValue.num (d.total_pages : Int)),
        ("pages", JValue.arr (d.pages.map pageToJValue))] ++
      (nlIndent lvlEnd ++ '}' :: rest) =
      ',' :: (nlIndent lvl ++
        (jdumpField lvl ("total_pages", JValue.num (d.total_pages : Int)) ++
        (',' :: (nlIndent lvl ++
          (jdumpField lvl ("pages", JValue.arr (d.pages.map pageToJValue)) ++
          (nlIndent lvlEnd ++ '}' :: rest)))))) := by
    simp [jdumpFields, List.append_assoc]
  rw [hsh, show u + 4 = (u + 3) + 1 from rfl, parseFields,
    skipWs_cons_not _ (by decide)]
  have hF2 : parseField (u + 3)
      (nlIndent lvl ++
        (jdumpField lvl ("total_pages", JValue.num (d.total_pages : Int)) ++
        (',' :: (nlIndent lvl ++
          (jdumpField lvl ("pages", JValue.arr (d.pages.map pageToJValue)) ++
          (nlIndent lvlEnd ++ '}' :: rest)))))) =
      some (("total_pages", JValue.num (d.total_pages : Int)),
        ',' :: (nlIndent lvl ++
          (jdumpField lvl ("pages", JValue.arr (d.pages.map pageToJValue)) ++
          (nlIndent lvlEnd ++ '}' :: rest)))) := by
    rw [parseField_skipWs_congr _ (skipWs_nl lvl _)]
    exact parseField_round (u + 2) lvl "total_pages" _ _
      (scalar_num d.total_pages (u + 1) lvl _ (noDigit_comma _))
  have hF3 : parseField (u + 2)
      (nlIndent lvl ++
        (jdumpField lvl ("pages", JValue.arr (d.pages.map pageToJValue)) ++
        (nlIndent lvlEnd ++ '}' :: rest))) =
      some (("pages", JValue.arr (d.pages.map pageToJValue)),
        nlIndent lvlEnd ++ '}' :: rest) := by
    rw [parseField_skipWs_congr _ (skipWs_nl lvl _)]
    exact parseField_round (u + 1) lvl "pages" _ _
      (parse_pages_arr d.pages (u + 1) lvl _ (by omega))
  have hEnd : parseFields (u + 2) (nlIndent lvlEnd ++ '}' :: rest) =
      some ([], rest) := by
    rw [show u + 2 = (u + 1) + 1 from rfl, parseFields, skipWs_nl,
      skipWs_cons_not _ (by decide)]
    rfl
  have hMid : parseFields (u + 3)
      (',' :: (nlIndent lvl ++
        (jdumpField lvl ("pages", JValue.arr (List.map pageToJValue d.pages)) ++
        (nlIndent lvlEnd ++ '}' :: rest)))) =
      some ([("pages", JValue.arr (List.map pageToJValue d.pages))], rest) := by
    rw [show u + 3 = (u + 2) + 1 from rfl, parseFields, skipWs_cons_not _ (by decide)]
    simp [hF3, hEnd]
  simp [hF2, hMid]

theorem parse_doc (d : DocumentResult) :
    ∀ (fuel : Nat) (rest : List Char), d.pages.length + 13 ≤ fuel →
    parseValue fuel (jdump 0 (docToJValue d) ++ rest) = some (docToJValue d, rest) := by
  intro fuel rest hfuel
  obtain ⟨u, rfl⟩ : ∃ u, fuel = u + 1 := ⟨fuel - 1, by omega⟩
  have hdoc : docToJValue d = .obj (("filename", JValue.str d.filename) ::
      [("total_pages", JValue.num (d.total_pages : Int)),
        ("pages", JValue.arr (d.pages.map pageToJValue))]) := rfl
  rw [hdoc]
  have hsh : jdump 0 (.obj (("filename", JValue.str d.filename) ::
      [("total_pages", JValue.num (d.total_pages : Int)),
        ("pages", JValue.arr (d.pages.map pageToJValue))])) ++ rest =
      '{' :: (nlIndent 1 ++ (jdumpField 1 ("filename", JValue.str d.filename) ++
        (jdumpFields 1 [("total_pages", JValue.num (d.total_pages : Int)),
          ("pages", JValue.arr (d.pages.map pageToJValue))] ++
        (nlIndent 0 ++ '}' :: rest)))) := by
    simp [jdump, List.append_assoc]
  rw [hsh, parseValue, skipWs_cons_not _ (by decide)]
  have hskip : skipWs (nlIndent 1 ++ (jdumpField 1 ("filename", JValue.str d.filename) ++
      (jdumpFields 1 [("total_pages", JValue.num (d.total_pages : Int)),
        ("pages", JValue.arr (d.pages.map pageToJValue))] ++
      (nlIndent 0 ++ '}' :: rest)))) =
      jdumpField 1 ("filename", JValue.str d.filename) ++
        (jdumpFields 1 [("total_pages", JValue.num (d.total_pages : Int)),
          ("pages", JValue.arr (d.pages.map pageToJValue))] ++
        (nlIndent 0 ++ '}' :: rest)) := by
    rw [skipWs_nl, jdumpField_cons, skipWs_cons_not _ (by decide)]
  have hhead : (jdumpField 1 ("filename", JValue.str d.filename) ++
      (jdumpFields 1 [("total_pages", JValue.num (d.total_pages : Int)),
        ("pages", JValue.arr (d.pages.map pageToJValue))] ++
      (nlIndent 0 ++ '}' :: rest))).head? = some '"' := by
    rw [jdumpField_cons]
    rfl
  have hF1 : parseField u (jdumpField 1 ("filename", JValue.str d.filename) ++
      (jdumpFields 1 [("total_pages", JValue.num (d.total_pages : Int)),
        ("pages", JValue.arr (d.pages.map pageToJValue))] ++
      (nlIndent 0 ++ '}' :: rest))) =
      some (("filename", JValue.str d.filename),
        jdumpFields 1 [("total_pages", JValue.num (d.total_pages : Int)),
          ("pages", JValue.arr (d.pages.map pageToJValue))] ++
        (nlIndent 0 ++ '}' :: rest)) := by
    obtain ⟨w, rfl⟩ : ∃ w, u = w + 1 := ⟨u - 1, by omega⟩
    refine parseField_round w 1 "filename" _ _ ?_
    obtain ⟨w2, rfl⟩ : ∃ w2, w = w2 + 1 := ⟨w - 1, by omega⟩
    exact scalar_str d.filename w2 1 _ (noDigit_fields_tail 1 0 _ rest)
  have hRest := parse_doc_fields d u 1 0 rest (by omega)
  simp [hskip, hhead, hF1, hRest]

/-! ## C4: the fuel in `json_loads` suffices -/

theorem jdumpItems_len_ge (l : List JValue) :
    ∀ lvl, l.length ≤ (jdumpItems lvl l).length := by
  induction l with
  | nil => intro lvl; simp [jdumpItems]
  | cons x xs ih =>
    intro lvl
    have h := ih lvl
    simp [jdumpItems, List.length_append]
    omega

theorem jdump_arr_len (l : List JValue) (lvl : Nat) :
    l.length ≤ (jdump lvl (.arr l)).length := by
  cases l with
  | nil => simp [jdump]
  | cons x xs =>
    have h := jdumpItems_len_ge xs (lvl + 1)
    simp [jdump, List.length_append]
    omega

theorem jdump_doc_len (d : DocumentResult) :
    d.pages.length ≤ (jdump 0 (docToJValue d)).length := by
  have h := jdump_arr_len (d.pages.map pageToJValue) 1
  rw [List.length_map] at h
  simp [docToJValue, jdump, jdumpFields, jdumpField, List.length_append]
  omega

/-! ## C4: the round-trip -/

/-- C4: for every `DocumentResult` `d` produced by conversion, packaging
a `{filename, data}` entry carrying `d` puts the member
`filename.replace('.pdf', '.json')` into the archive, and JSON-parsing
that member's text (`json.dumps(data, indent=2)`) yields a value
deep-equal to the original `data` — whatever the filename, page texts
(all escapes included), counts and page count. -/
theorem packaged_json_roundtrip (entries : List ZipEntry) (fn : String) (d : DocumentResult)
    (h : ZipEntry.mk (some fn) (some (docToJValue d)) ∈ entries) :
    ∃ content, (pyReplace fn ".pdf" ".json", content) ∈ create_zip_package entries ∧
      json_loads content = some (docToJValue d) := by
  refine ⟨json_dumps2 (docToJValue d), List.mem_filterMap.mpr ⟨_, h, rfl⟩, ?_⟩
  unfold json_loads json_dumps2
  rw [show ((jdump 0 (docToJValue d)).asString).data = jdump 0 (docToJValue d) from rfl]
  rw [show ((jdump 0 (docToJValue d)).asString).length =
    (jdump 0 (docToJValue d)).length from rfl]
  have hlen := jdump_doc_len d
  have hp := parse_doc d ((jdump 0 (docToJValue d)).length + 16) [] (by omega)
  rw [List.append_nil] at hp
  rw [hp]
  simp [skipWs]

/-- Witness for C4 on a one-page document with text needing escapes. -/
theorem packaged_json_roundtrip_witness :
    ∃ content,
      (pyReplace "a.pdf" ".pdf" ".json", content) ∈
        create_zip_package [⟨some "a.pdf",
          some (docToJValue ⟨"a.pdf", 1, [⟨1, some "h\"i\n", 1, 4⟩]⟩)⟩] ∧
      json_loads content = some (docToJValue ⟨"a.pdf", 1, [⟨1, some "h\"i\n", 1, 4⟩]⟩) :=
  packaged_json_roundtrip [⟨some "a.pdf",
      some (docToJValue ⟨"a.pdf", 1, [⟨1, some "h\"i\n", 1, 4⟩]⟩)⟩]
    "a.pdf" ⟨"a.pdf", 1, [⟨1, some "h\"i\n", 1, 4⟩]⟩
    (List.mem_singleton.mpr rfl)


end PdfConverter
